import Mathlib

/-!
tailscale-proxy: route matcher, request rewriter and authenticator.

A shallow embedding of `internal/proxy/server.go` and `internal/auth/auth.go`.

Go strings are byte sequences; a `GoString` is the list of its bytes, each
`Char` of the model standing for one byte (`len` is `List.length`, `s[i:]` is
`List.drop i`, `+` is `++`).  Go's `int` is 64 bits wide; the only arithmetic
of the embedded code adds 1000000 to the length of a string, which cannot
overflow for a string that fits in memory, so lengths and ranks are integers.

Functions of the Go standard library whose behaviour is not fixed by this
repository (`strings.ToLower`, `strings.TrimSpace`, `net.SplitHostPort`,
`(*http.Request).Cookie`) are fields of `GoLib`, and those that decode and
verify tokens (base64, JSON, `strings.EqualFold`, RSA signatures) are fields
of `JwtLib`; the theorems hold for every such library.

A `time.Time` is an instant, an integer number of nanoseconds since the Unix
epoch; each reading of `time.Now()` and each outcome of the key-set fetch is
an argument of the function that makes it.  `time.Unix` computes in `int64`
and is modelled with its wraparound (`unixTime`).
-/

namespace TailscaleProxy

/-- A Go string, as the sequence of its bytes. -/
abbrev GoString := List Char

/-- Go `strings.HasPrefix(s, p)`. -/
def hasPrefix (s p : GoString) : Bool := p.isPrefixOf s

/-- Go `strings.HasSuffix(s, p)`. -/
def hasSuffix (s p : GoString) : Bool := p.isSuffixOf s

/-- Go `strings.TrimPrefix(s, p)`. -/
def trimPrefix (s p : GoString) : GoString :=
  if hasPrefix s p then s.drop p.length else s

/-- Go `url.URL`, the fields the proxy reads and writes. -/
structure URL where
  Scheme : GoString
  Host : GoString
  Path : GoString
  deriving DecidableEq, Repr

/-- The variables captured by the director closure of `newReverseProxy`. -/
structure ReverseProxy where
  target : URL
  preserveHost : Bool
  deriving DecidableEq, Repr

/-- Go `newReverseProxy(target, preserveHost)`. -/
def newReverseProxy (target : URL) (preserveHost : Bool) : ReverseProxy :=
  { target := target, preserveHost := preserveHost }

/-- Go `type rule struct` of `server.go`; the field `prefix` is `pathPrefix`
here, and `rp` is the proxy `newReverseProxy` returned for the rule. -/
structure Rule where
  host : GoString
  pathPrefix : GoString
  target : URL
  rp : ReverseProxy
  deriving DecidableEq, Repr

/-- The test of the two `if`s in the loop of `Router.match`: the rule is not
skipped by `rl.host != "" && rl.host != host`, and
`rl.prefix == "" || strings.HasPrefix(path, rl.prefix)` holds. -/
def Rule.candidate (rl : Rule) (host path : GoString) : Bool :=
  !(rl.host != [] && rl.host != host) && (rl.pathPrefix == [] || hasPrefix path rl.pathPrefix)

/-- The value `plen` of `Router.match` for a rule: the length of the prefix,
plus 1000000 when the rule has a host. -/
def Rule.plen (rl : Rule) : Int :=
  (rl.pathPrefix.length : Int) + (if rl.host != [] then 1000000 else 0)

/-- The loop of `Router.match` from index `i` on, with the loop variables
`best` (the index the pointer `best` refers to) and `bestLen`. -/
def matchLoop (host path : GoString) : List Rule → Nat → Option Nat → Int → Option Nat
  | [], _, best, _ => best
  | rl :: rest, i, best, bestLen =>
    if rl.host != [] && rl.host != host then
      matchLoop host path rest (i + 1) best bestLen
    else if rl.pathPrefix == [] || hasPrefix path rl.pathPrefix then
      let plen : Int := (rl.pathPrefix.length : Int) + (if rl.host != [] then 1000000 else 0)
      if plen > bestLen then
        matchLoop host path rest (i + 1) (some i) plen
      else
        matchLoop host path rest (i + 1) best bestLen
    else
      matchLoop host path rest (i + 1) best bestLen

/-- Go `Router.match`, as the index into `r.rules` of the rule the returned
pointer refers to (`none` for the nil pointer). -/
def matchIndex (rules : List Rule) (host path : GoString) : Option Nat :=
  matchLoop host path rules 0 none (-1)

/-- Go `Router.match`, as the rule the returned pointer refers to. -/
def matchRule (rules : List Rule) (host path : GoString) : Option Rule :=
  (matchIndex rules host path).bind fun i => rules[i]?

/-! ## Standard library -/

/-- Go `http.Header`: the values stored under each canonical key (no values
for a key that is absent). -/
abbrev Header := GoString → List GoString

/-- The functions of the Go standard library the embedded code calls and
whose behaviour the repository does not fix. -/
structure GoLib where
  /-- Go `strings.ToLower`. -/
  toLower : GoString → GoString
  /-- Go `strings.TrimSpace`. -/
  trimSpace : GoString → GoString
  /-- Go `net.SplitHostPort`, `none` when it returns an error. -/
  splitHostPort : GoString → Option (GoString × GoString)
  /-- Go `textproto.CanonicalMIMEHeaderKey`, applied by `Get`, `Set`, `Del`. -/
  canonicalKey : GoString → GoString
  /-- Go `(*http.Request).Cookie(name)` on a request with these headers: the
  value of the cookie, `none` when it returns `ErrNoCookie`. -/
  cookie : Header → GoString → Option GoString

/-- Go `http.Header.Get`. -/
def Header.get (lib : GoLib) (h : Header) (k : GoString) : GoString :=
  match h (lib.canonicalKey k) with
  | [] => []
  | v :: _ => v

/-- Go `http.Header.Set`. -/
def Header.set (lib : GoLib) (h : Header) (k v : GoString) : Header :=
  fun key => if key = lib.canonicalKey k then [v] else h key

/-- Go `http.Header.Del`. -/
def Header.del (lib : GoLib) (h : Header) (k : GoString) : Header :=
  fun key => if key = lib.canonicalKey k then [] else h key

/-! ## `internal/config` -/

/-- Go `config.Route`. -/
structure Route where
  Host : GoString
  PathPrefix : GoString
  Target : URL

/-- Go `config.Config`; the two sets are lists of their members. -/
structure Config where
  ListenAddr : GoString
  PreserveHost : Bool
  Routes : List Route
  DefaultBackend : Option URL
  AuthMode : GoString
  SharedSecret : GoString
  GoogleClientID : GoString
  AllowedEmails : List GoString
  AllowedDomains : List GoString

/-! ## `internal/proxy` -/

/-- Go `type Router struct`. -/
structure Router where
  cfg : Config
  rules : List Rule

/-- Go `NewRouter`; its error result is always nil. -/
def NewRouter (lib : GoLib) (cfg : Config) : Router :=
  { cfg := cfg
    rules := cfg.Routes.map fun rt =>
      { host := lib.toLower rt.Host
        pathPrefix := rt.PathPrefix
        target := rt.Target
        rp := newReverseProxy rt.Target cfg.PreserveHost } }

/-- Go `http.Request`, the fields the proxy and the authenticator use;
`TLS` is `req.TLS != nil`. -/
structure Request where
  Host : GoString
  Header : Header
  URL : URL
  RemoteAddr : GoString
  TLS : Bool

/-- Go `singleJoiningSlash`. -/
def singleJoiningSlash (a b : GoString) : GoString :=
  let aslash := hasSuffix a ['/']
  let bslash := hasPrefix b ['/']
  if aslash && bslash then a ++ b.drop 1
  else if !aslash && !bslash then a ++ ['/'] ++ b
  else a ++ b

/-- Go `appendHeader`. -/
def appendHeader (lib : GoLib) (h : Header) (k v : GoString) : Header :=
  let vv := Header.get lib h k
  if vv == [] then Header.set lib h k v
  else Header.set lib h k (vv ++ [',', ' '] ++ v)

/-- The hop-by-hop header names of `removeHopHeaders`. -/
def hopHeaders : List GoString :=
  ["Connection".toList, "Keep-Alive".toList, "Proxy-Authenticate".toList,
   "Proxy-Authorization".toList, "TE".toList, "Trailer".toList,
   "Transfer-Encoding".toList, "Upgrade".toList]

/-- Go `removeHopHeaders`. -/
def removeHopHeaders (lib : GoLib) (h : Header) : Header :=
  hopHeaders.foldl (fun acc k => Header.del lib acc k) h

/-- The director closure of `newReverseProxy`, applied to a request. -/
def director (lib : GoLib) (rp : ReverseProxy) (req : Request) : Request :=
  let req : Request :=
    { req with URL := { Scheme := rp.target.Scheme
                        Host := rp.target.Host
                        Path := singleJoiningSlash rp.target.Path req.URL.Path } }
  let req : Request :=
    match lib.splitHostPort req.RemoteAddr with
    | some (ip, _) =>
      { req with Header := appendHeader lib req.Header "X-Forwarded-For".toList ip }
    | none => req
  let req : Request :=
    if Header.get lib req.Header "X-Forwarded-Proto".toList == [] then
      if req.TLS then
        { req with Header := Header.set lib req.Header "X-Forwarded-Proto".toList "https".toList }
      else
        { req with Header := Header.set lib req.Header "X-Forwarded-Proto".toList "http".toList }
    else req
  let req : Request := if !rp.preserveHost then { req with Host := rp.target.Host } else req
  { req with Header := removeHopHeaders lib req.Header }

/-- The prefix-stripping step of `Router.ServeHTTP` (the body of
`if m := r.match(host, path); m != nil` before `m.rp.ServeHTTP`): the value of
`req.URL.Path` after it, for the matched rule's prefix and the request path. -/
def stripPrefix (pfx path : GoString) : GoString :=
  if pfx != [] && hasPrefix path pfx then
    if path != pfx then
      let p := trimPrefix path pfx
      if p == [] then ['/'] else p
    else path
  else path

/-- What `Router.ServeHTTP` does with a request: hands an outbound request
to the forwarding transport, or answers 404. -/
inductive Outcome where
  | forwarded (out : Request)
  | notFound

/-- Go `Router.ServeHTTP`; `rp.ServeHTTP` runs the director of `rp` on the
request and forwards the result (what `httputil.ReverseProxy` does to the
request after its director is outside the repository and not part of
`Outcome.forwarded`). -/
def Router.ServeHTTP (lib : GoLib) (r : Router) (req : Request) : Outcome :=
  let host := lib.toLower req.Host
  let path := req.URL.Path
  match matchRule r.rules host path with
  | some m =>
    let req : Request := { req with URL := { req.URL with Path := stripPrefix m.pathPrefix path } }
    Outcome.forwarded (director lib m.rp req)
  | none =>
    match r.cfg.DefaultBackend with
    | some d => Outcome.forwarded (director lib (newReverseProxy d r.cfg.PreserveHost) req)
    | none => Outcome.notFound

/-! ## `internal/auth` -/

def ModeOff : GoString := "off".toList
def ModeSharedSecret : GoString := "shared_secret".toList
def ModeGoogle : GoString := "google".toList
def ModeBoth : GoString := "both".toList

/-- Go `type Authenticator struct`, the fields fixed at construction. -/
structure Authenticator where
  Mode : GoString
  sharedSecret : GoString
  googleClientID : GoString
  allowedEmails : List GoString
  allowedDomains : List GoString

/-- Go `NewAuthenticator`: the authenticator, or the error message. -/
def NewAuthenticator (lib : GoLib) (cfg : Config) : Except GoString Authenticator :=
  let a : Authenticator :=
    { Mode := lib.toLower cfg.AuthMode
      sharedSecret := lib.trimSpace cfg.SharedSecret
      googleClientID := lib.trimSpace cfg.GoogleClientID
      allowedEmails := cfg.AllowedEmails
      allowedDomains := cfg.AllowedDomains }
  if a.Mode == ModeOff then
    Except.ok a
  else if (a.Mode == ModeSharedSecret || a.Mode == ModeBoth) && a.sharedSecret == [] then
    Except.error "AUTH_MODE requires AUTH_SHARED_SECRET".toList
  else if (a.Mode == ModeGoogle || a.Mode == ModeBoth) && a.googleClientID == [] then
    Except.error "AUTH_MODE requires GOOGLE_OIDC_CLIENT_ID".toList
  else
    Except.ok a

/-- The first statements of `Authenticator.authorized`: the bearer token of
the `Authorization` header, empty when the lowercased header has no `bearer `
prefix.  `authz[7:]` is `authz.drop 7`. -/
def bearerToken (lib : GoLib) (r : Request) : GoString :=
  let authz := Header.get lib r.Header "Authorization".toList
  if hasPrefix (lib.toLower authz) ['b', 'e', 'a', 'r', 'e', 'r', ' '] then
    lib.trimSpace (authz.drop 7)
  else []

/-- The cookie fallback of `Authenticator.authorized`: an empty token is
replaced by the value of the `id_token` cookie when the request has one. -/
def cookieFallback (lib : GoLib) (r : Request) (token : GoString) : GoString :=
  if token == [] then
    match lib.cookie r.Header "id_token".toList with
    | some v => v
    | none => token
  else token

/-- Go `Authenticator.authorized`; `verify` is `a.verifyGoogleToken`, the
outcome of the OIDC check on a token. -/
def Authenticator.authorized (lib : GoLib) (verify : GoString → Bool)
    (a : Authenticator) (r : Request) : Bool :=
  let token := bearerToken lib r
  if a.Mode = ModeSharedSecret then
    token != [] && token == a.sharedSecret
  else if a.Mode = ModeGoogle then
    verify (cookieFallback lib r token)
  else if a.Mode = ModeBoth then
    if token == a.sharedSecret && token != [] then true
    else verify (cookieFallback lib r token)
  else true

/-! ## A standard library for ASCII text

The theorems below hold for every `GoLib`.  To evaluate the embedding on
concrete requests, `asciiLib` gives the library functions on ASCII text. -/

/-- ASCII letters to lower case, as `strings.ToLower` does on ASCII text. -/
def asciiToLower (s : GoString) : GoString :=
  s.map fun c => if 'A' ≤ c ∧ c ≤ 'Z' then Char.ofNat (c.toNat + 32) else c

/-- The ASCII white space of `strings.TrimSpace`. -/
def asciiIsSpace (c : Char) : Bool :=
  c == ' ' || c == '\t' || c == '\n' || c == '\r' || c.toNat == 11 || c.toNat == 12

/-- Leading and trailing ASCII white space removed. -/
def asciiTrimSpace (s : GoString) : GoString :=
  ((s.dropWhile asciiIsSpace).reverse.dropWhile asciiIsSpace).reverse

/-- The text before and after the last colon, for an address `host:port`
without brackets. -/
def asciiSplitHostPort (s : GoString) : Option (GoString × GoString) :=
  let port := (s.reverse.takeWhile fun c => c != ':').reverse
  if port.length < s.length then some (s.take (s.length - port.length - 1), port) else none

/-- Canonical form of an ASCII header name: the first letter and every letter
after a hyphen in upper case, the others in lower case. -/
def asciiCanonicalKeyFrom (upper : Bool) : GoString → GoString
  | [] => []
  | c :: cs =>
    let c1 : Char :=
      if upper then (if 'a' ≤ c ∧ c ≤ 'z' then Char.ofNat (c.toNat - 32) else c)
      else (if 'A' ≤ c ∧ c ≤ 'Z' then Char.ofNat (c.toNat + 32) else c)
    c1 :: asciiCanonicalKeyFrom (c == '-') cs

/-- Canonical form of an ASCII header name. -/
def asciiCanonicalKey (k : GoString) : GoString := asciiCanonicalKeyFrom true k

/-- The cookie of the given name in `Cookie` headers of the form
`name=value; name=value`. -/
def asciiCookie (h : Header) (name : GoString) : Option GoString :=
  let pairs := (h "Cookie".toList).flatMap fun line =>
    (line.splitOn ';').map fun part =>
      let part := asciiTrimSpace part
      (part.takeWhile (fun c => c != '='), (part.dropWhile (fun c => c != '=')).drop 1)
  (pairs.find? fun kv => kv.1 == name).map fun kv => kv.2

/-- The library functions on ASCII text. -/
def asciiLib : GoLib :=
  { toLower := asciiToLower
    trimSpace := asciiTrimSpace
    splitHostPort := asciiSplitHostPort
    canonicalKey := asciiCanonicalKey
    cookie := asciiCookie }

/-- A header map from a list of keys and values. -/
def Header.ofList (kvs : List (GoString × List GoString)) : Header :=
  fun key => match kvs.find? fun kv => kv.1 == key with
    | some kv => kv.2
    | none => []

/-! ## Concrete tables and requests -/

/-- The backend `http://backend:9000/svc`. -/
def backendSvc : URL :=
  { Scheme := "http".toList, Host := "backend:9000".toList, Path := "/svc".toList }

/-- A rule of a router built by `NewRouter` without host preservation. -/
def mkRule (host pfx : GoString) (target : URL) : Rule :=
  { host := host, pathPrefix := pfx, target := target, rp := newReverseProxy target false }

/-- The rule `{host: "a.com", prefix: "/"}`. -/
def hostRootRule : Rule := mkRule "a.com".toList "/".toList backendSvc

/-- The rule `{host: "", prefix: "/api/v2"}`. -/
def wildcardApiV2Rule : Rule := mkRule [] "/api/v2".toList backendSvc

/-- A path of `n` slashes. -/
def slashes (n : Nat) : GoString := List.replicate n '/'

/-- The host-less rule whose prefix is `n` slashes. -/
def wildcardSlashesRule (n : Nat) : Rule := mkRule [] (slashes n) backendSvc

/-- The rule `{host: "a.com", prefix: "/api"}`. -/
def hostApiRule : Rule := mkRule "a.com".toList "/api".toList backendSvc

/-- The rule `{host: "a.com", prefix: "/api/v1"}`. -/
def hostApiV1Rule : Rule := mkRule "a.com".toList "/api/v1".toList backendSvc

/-- A second rule `{host: "a.com", prefix: "/api"}`, to another backend. -/
def hostApiRuleAlt : Rule :=
  mkRule "a.com".toList "/api".toList
    { Scheme := "http".toList, Host := "other:8000".toList, Path := [] }

/-- The configuration with the single route
`app.internal/api/v1=http://backend:9000/svc` and no default backend. -/
def appConfig : Config :=
  { ListenAddr := ":8080".toList
    PreserveHost := false
    Routes := [{ Host := "app.internal".toList, PathPrefix := "/api/v1".toList,
                 Target := backendSvc }]
    DefaultBackend := none
    AuthMode := "off".toList
    SharedSecret := []
    GoogleClientID := []
    AllowedEmails := []
    AllowedDomains := [] }

/-- The rule `NewRouter` builds from the route of `appConfig`. -/
def appRule : Rule := mkRule "app.internal".toList "/api/v1".toList backendSvc

/-- A request to host `app.internal`, path `/api/v1/widgets`. -/
def appRequest : Request :=
  { Host := "app.internal".toList
    URL := { Scheme := [], Host := [], Path := "/api/v1/widgets".toList }
    Header := Header.ofList []
    RemoteAddr := "10.0.0.7:51234".toList
    TLS := false }

/-- An authenticator in mode `shared_secret` with secret `s3cret`. -/
def secretAuthenticator : Authenticator :=
  { Mode := ModeSharedSecret
    sharedSecret := "s3cret".toList
    googleClientID := []
    allowedEmails := []
    allowedDomains := [] }

/-- A request with the header `Authorization: BEARER  s3cret`. -/
def secretRequest : Request :=
  { Host := "app.internal".toList
    URL := { Scheme := [], Host := [], Path := "/".toList }
    Header := Header.ofList [("Authorization".toList, ["BEARER  s3cret".toList])]
    RemoteAddr := "10.0.0.7:51234".toList
    TLS := false }

/-- A request with the header `Authorization: Bearer other`. -/
def wrongSecretRequest : Request :=
  { secretRequest with
    Header := Header.ofList [("Authorization".toList, ["Bearer other".toList])] }

/-! ## `internal/auth`: keys and the key cache -/

/-- A byte of decoded binary data. -/
abbrev Byte := Fin 256

/-- Go `rsa.PublicKey`. -/
structure PublicKey where
  N : Nat
  E : Int
  deriving DecidableEq, Repr

/-- The struct `hdr` that `verifyGoogleToken` decodes the token header into. -/
structure JwtHeader where
  Alg : GoString
  Kid : GoString
  Typ : GoString
  deriving DecidableEq, Repr

/-- The struct `claims` that `verifyGoogleToken` decodes the payload into;
`Exp` and `Iat` are seconds since the Unix epoch, `int64` values. -/
structure Claims where
  Iss : GoString
  Aud : GoString
  Exp : Int
  Iat : Int
  Email : GoString
  EmailVerified : Bool
  HD : GoString
  deriving DecidableEq, Repr

/-- The functions of the Go standard library that `auth.go` calls on tokens
and keys, and whose behaviour the repository does not fix. -/
structure JwtLib where
  /-- Go `base64.RawURLEncoding.DecodeString`, `none` when it returns an error. -/
  base64Decode : GoString → Option (List Byte)
  /-- Go `strings.EqualFold`. -/
  equalFold : GoString → GoString → Bool
  /-- Go `json.Unmarshal(headerJSON, &hdr)`, `none` when it returns an error. -/
  unmarshalHeader : List Byte → Option JwtHeader
  /-- Go `json.Unmarshal(payloadJSON, &claims)`, `none` when it returns an error. -/
  unmarshalClaims : List Byte → Option Claims
  /-- Go `rsa.VerifyPKCS1v15(pub, crypto.SHA256, h[:], sig)` for the SHA-256
  digest `h` of the signed text: whether it returns no error. -/
  verifyPKCS1v15 : PublicKey → GoString → List Byte → Bool

/-- Go `new(big.Int).SetBytes(b)`: the bytes read as a big-endian unsigned
integer. -/
def setBytes (b : List Byte) : Nat :=
  b.foldl (fun acc x => acc * 256 + x.val) 0

/-- Go `binary.BigEndian.Uint32(b)` on a slice of four bytes:
`b[3] | b[2]<<8 | b[1]<<16 | b[0]<<24`. -/
def bigEndianUint32 (b : List Byte) : Nat :=
  (b.getD 3 0).val + (b.getD 2 0).val * 2 ^ 8 + (b.getD 1 0).val * 2 ^ 16 +
    (b.getD 0 0).val * 2 ^ 24

/-- Go `jwkToRSA`, `none` when it returns an error.  `int` is 64 bits wide, so
`int(uint32)` keeps the value. -/
def jwkToRSA (jl : JwtLib) (nB64 eB64 : GoString) : Option PublicKey :=
  match jl.base64Decode nB64 with
  | none => none
  | some nBytes =>
    match jl.base64Decode eB64 with
    | none => none
    | some eBytes =>
      let nn := setBytes nBytes
      let ee : Nat :=
        if eBytes.length < 4 then
          bigEndianUint32 (List.replicate (4 - eBytes.length) 0 ++ eBytes)
        else
          bigEndianUint32 (eBytes.drop (eBytes.length - 4))
      some { N := nn, E := (ee : Int) }

/-- Go `type jwk struct`. -/
structure Jwk where
  Kty : GoString
  Kid : GoString
  Use : GoString
  Alg : GoString
  N : GoString
  E : GoString
  X5c : List GoString

/-- A Go `time.Time`, as an instant: nanoseconds since the Unix epoch. -/
abbrev Time := Int

/-- Go `time.Minute`, in nanoseconds. -/
def minute : Int := 60 * 1000000000

/-- The zero `time.Time` (January 1, year 1, 00:00:00 UTC). -/
def zeroTime : Time := -62135596800 * 1000000000

/-- Go `map[string]*rsa.PublicKey` holding keys: the entries, at most one
for each key identifier. -/
abbrev KeyMap := List (GoString × PublicKey)

/-- The assignment `keys[kid] = pub` on a Go map. -/
def KeyMap.set (m : KeyMap) (kid : GoString) (pub : PublicKey) : KeyMap :=
  (kid, pub) :: m.filter fun kv => kv.1 != kid

/-- The read `keys[kid]` on a Go map of pointers, `none` for nil. -/
def KeyMap.get (m : KeyMap) (kid : GoString) : Option PublicKey :=
  (m.find? fun kv => kv.1 == kid).map fun kv => kv.2

/-- The mutable fields `jwks` and `jwksExp` of `Authenticator`; `jwks` is
`none` for the nil map. -/
structure KeyCache where
  jwks : Option KeyMap
  jwksExp : Time
  deriving DecidableEq, Repr

/-- The key cache of a freshly constructed `Authenticator`. -/
def KeyCache.fresh : KeyCache := { jwks := none, jwksExp := zeroTime }

/-- What `http.DefaultClient.Do` and the JSON decoding of the response body
give in `refreshJWKS`. -/
inductive FetchResult where
  | fetchError
  | parseError
  | body (keys : List Jwk)

/-- What one call of `refreshJWKS` reads from outside: `time.Now()` at its
first statement, the outcome of the fetch, and `time.Now()` when the new keys
are installed. -/
structure RefreshEnv where
  nowCheck : Time
  resp : FetchResult
  nowInstall : Time

/-- The loop of `refreshJWKS` over `body.Keys`, from the map `keys` built so
far. -/
def collectKeys (jl : JwtLib) : List Jwk → KeyMap → KeyMap
  | [], keys => keys
  | k :: rest, keys =>
    if k.Kty != "RSA".toList || k.N == [] || k.E == [] || k.Kid == [] then
      collectKeys jl rest keys
    else
      match jwkToRSA jl k.N k.E with
      | none => collectKeys jl rest keys
      | some pub => collectKeys jl rest (keys.set k.Kid pub)

/-- Go `Authenticator.refreshJWKS(force)`, on the key cache. -/
def refreshJWKS (jl : JwtLib) (force : Bool) (env : RefreshEnv) (c : KeyCache) : KeyCache :=
  if !force && env.nowCheck < c.jwksExp then c
  else
    match env.resp with
    | FetchResult.fetchError => c
    | FetchResult.parseError => c
    | FetchResult.body ks =>
      let keys := collectKeys jl ks []
      if keys.length > 0 then
        { jwks := some keys, jwksExp := env.nowInstall + 10 * minute }
      else c

/-- Go `Authenticator.fetchKey(kid)`; `now` is its `time.Now()`, `env` what a
`refreshJWKS(false)` it calls reads.  The result is the key (`none` for nil)
and the key cache after the call. -/
def fetchKey (jl : JwtLib) (kid : GoString) (now : Time) (env : RefreshEnv) (c : KeyCache) :
    Option PublicKey × KeyCache :=
  let c := if c.jwks.isNone || now > c.jwksExp then refreshJWKS jl false env c else c
  match c.jwks with
  | none => (none, c)
  | some m => (m.get kid, c)

/-! ## `internal/auth`: token verification -/

/-- Go `strings.LastIndexByte(s, c)`, -1 when `c` does not occur. -/
def lastIndexByte (s : GoString) (c : Char) : Int :=
  match (s.reverse.indexOf? c) with
  | none => -1
  | some k => (s.length : Int) - 1 - (k : Int)

/-- What `splitAndDecodeJWT` returns without error. -/
structure DecodedJWT where
  header : List Byte
  payload : List Byte
  sig : List Byte
  signed : GoString

/-- Go `splitAndDecodeJWT`, `none` when it returns an error;
`strings.Split(tok, ".")` is `tok.splitOn '.'`. -/
def splitAndDecodeJWT (jl : JwtLib) (tok : GoString) : Option DecodedJWT :=
  match tok.splitOn '.' with
  | [p0, p1, p2] =>
    match jl.base64Decode p0 with
    | none => none
    | some h =>
      match jl.base64Decode p1 with
      | none => none
      | some p =>
        match jl.base64Decode p2 with
        | none => none
        | some s => some { header := h, payload := p, sig := s, signed := p0 ++ ['.'] ++ p1 }
  | _ => none

/-- What one call of `verifyGoogleToken` reads from outside: `time.Now()` of
the first `fetchKey` and what its refresh reads, what the forced refresh
reads, the same for the second `fetchKey`, and `time.Now()` of the expiry
check. -/
structure VerifyEnv where
  now1 : Time
  refresh1 : RefreshEnv
  forced : RefreshEnv
  now2 : Time
  refresh2 : RefreshEnv
  nowExp : Time

/-- The key lookup of `verifyGoogleToken`: `fetchKey`, and on nil a forced
refresh and a second `fetchKey`. -/
def lookupKey (jl : JwtLib) (env : VerifyEnv) (c : KeyCache) (kid : GoString) :
    Option PublicKey × KeyCache :=
  match fetchKey jl kid env.now1 env.refresh1 c with
  | (some pub, c1) => (some pub, c1)
  | (none, c1) =>
    let c2 := refreshJWKS jl true env.forced c1
    fetchKey jl kid env.now2 env.refresh2 c2

/-- The first part of `verifyGoogleToken`, up to the decoding of the claims:
the claims of a token whose structure, key lookup and signature check
succeed (`none` where the function returns false before), and the key cache
after it. -/
def verifiedClaims (jl : JwtLib) (env : VerifyEnv) (c : KeyCache) (idToken : GoString) :
    Option Claims × KeyCache :=
  if idToken == [] then (none, c)
  else
    match splitAndDecodeJWT jl idToken with
    | none => (none, c)
    | some d =>
      match jl.unmarshalHeader d.header with
      | none => (none, c)
      | some hdr =>
        if !jl.equalFold hdr.Alg "RS256".toList || hdr.Kid == [] then (none, c)
        else
          match lookupKey jl env c hdr.Kid with
          | (none, c1) => (none, c1)
          | (some pub, c1) =>
            if !jl.verifyPKCS1v15 pub d.signed d.sig then (none, c1)
            else (jl.unmarshalClaims d.payload, c1)

/-- A Go `int64` computation: the integer reduced to the range from -2^63 to
2^63 - 1 by two's-complement wraparound. -/
def wrapInt64 (x : Int) : Int :=
  (x + 9223372036854775808) % 18446744073709551616 - 9223372036854775808

/-- Go `time.Unix(sec, 0)`, as an instant.  It stores the seconds since
January 1 of year 1, `sec + 62135596800`, in an `int64`; the sum wraps around
for `sec` above 9223371974719179007. -/
def unixTime (sec : Int) : Time :=
  (wrapInt64 (sec + 62135596800) - 62135596800) * 1000000000

/-- The second part of `verifyGoogleToken`: the checks on the decoded claims,
at `time.Now()` equal to `now`.  The expiry test is
`time.Unix(claims.Exp, 0).Before(time.Now().Add(-1 * time.Minute))`. -/
def checkClaims (lib : GoLib) (a : Authenticator) (now : Time) (claims : Claims) : Bool :=
  if claims.Iss != "https://accounts.google.com".toList
      && claims.Iss != "accounts.google.com".toList then false
  else if claims.Aud != a.googleClientID then false
  else if unixTime claims.Exp < now + (-1) * minute then false
  else if a.allowedEmails.length > 0 || a.allowedDomains.length > 0 then
    if claims.Email == [] || !claims.EmailVerified then false
    else
      let email := lib.toLower claims.Email
      if a.allowedEmails.contains email then true
      else
        let i := lastIndexByte email '@'
        if i > 0 && a.allowedDomains.contains (email.drop (i + 1).toNat) then true
        else false
  else true

/-- Go `Authenticator.verifyGoogleToken`: the result and the key cache after
the call. -/
def verifyGoogleToken (lib : GoLib) (jl : JwtLib) (a : Authenticator) (env : VerifyEnv)
    (c : KeyCache) (idToken : GoString) : Bool × KeyCache :=
  match verifiedClaims jl env c idToken with
  | (none, c1) => (false, c1)
  | (some claims, c1) => (checkClaims lib a env.nowExp claims, c1)

/-! ## A token library for evaluation -/

/-- The byte with the given value, reduced modulo 256. -/
def byteOf (n : Nat) : Byte := ⟨n % 256, Nat.mod_lt n (by decide)⟩

/-- The value of a character of the URL-safe base64 alphabet. -/
def base64Value (c : Char) : Option Nat :=
  if 'A' ≤ c ∧ c ≤ 'Z' then some (c.toNat - 65)
  else if 'a' ≤ c ∧ c ≤ 'z' then some (c.toNat - 97 + 26)
  else if '0' ≤ c ∧ c ≤ '9' then some (c.toNat - 48 + 52)
  else if c = '-' then some 62
  else if c = '_' then some 63
  else none

/-- The bytes of a sequence of 6-bit values, four values to three bytes;
a single trailing value is an error. -/
def base64Groups : List Nat → Option (List Byte)
  | a :: b :: c :: d :: rest =>
    let v := ((a * 64 + b) * 64 + c) * 64 + d
    (base64Groups rest).map fun bs => byteOf (v / 65536) :: byteOf (v / 256) :: byteOf v :: bs
  | [a, b, c] =>
    let v := (a * 64 + b) * 64 + c
    some [byteOf (v / 1024), byteOf (v / 4)]
  | [a, b] => some [byteOf ((a * 64 + b) / 16)]
  | [_] => none
  | [] => some []

/-- Unpadded URL-safe base64 decoding. -/
def asciiBase64Decode (s : GoString) : Option (List Byte) :=
  (s.mapM base64Value).bind base64Groups

/-- A token library for one token: base64 is decoded as above, `EqualFold`
compares ASCII text, the header and the payload decode to `hdr` and `claims`,
and the signature check has the outcome `sigOk`. -/
def tokenLib (hdr : JwtHeader) (claims : Claims) (sigOk : Bool) : JwtLib :=
  { base64Decode := asciiBase64Decode
    equalFold := fun s t => asciiToLower s == asciiToLower t
    unmarshalHeader := fun _ => some hdr
    unmarshalClaims := fun _ => some claims
    verifyPKCS1v15 := fun _ _ _ => sigOk }

/-! ## Sequences of calls on the key cache -/

/-- Whether a call of `refreshJWKS` reaches the assignments `a.jwks = keys`
and `a.jwksExp = time.Now().Add(10 * time.Minute)`. -/
def refreshInstalls (jl : JwtLib) (force : Bool) (env : RefreshEnv) (c : KeyCache) : Bool :=
  if !force && env.nowCheck < c.jwksExp then false
  else
    match env.resp with
    | FetchResult.body ks => (collectKeys jl ks []).length > 0
    | _ => false

/-- A call of one of the two functions that touch the key cache, `fetchKey`
or `refreshJWKS`, with what it reads from outside. -/
inductive CacheCall where
  | fetch (kid : GoString) (now : Time) (env : RefreshEnv)
  | refresh (force : Bool) (env : RefreshEnv)

/-- The key cache after a call. -/
def CacheCall.run (jl : JwtLib) : CacheCall → KeyCache → KeyCache
  | CacheCall.fetch kid now env, c => (fetchKey jl kid now env c).2
  | CacheCall.refresh force env, c => refreshJWKS jl force env c

/-- The time of the successful refresh a call performs, if it performs one:
the `time.Now()` read when the new keys are installed. -/
def CacheCall.refreshedAt (jl : JwtLib) : CacheCall → KeyCache → Option Time
  | CacheCall.fetch _ now env, c =>
    if (c.jwks.isNone || now > c.jwksExp) && refreshInstalls jl false env c then
      some env.nowInstall
    else none
  | CacheCall.refresh force env, c =>
    if refreshInstalls jl force env c then some env.nowInstall else none

/-- The key cache together with the time of the most recent successful
refresh (`none` before the first one). -/
structure CacheHistory where
  cache : KeyCache
  lastRefresh : Option Time

/-- The history of a freshly constructed `Authenticator`. -/
def CacheHistory.fresh : CacheHistory := { cache := KeyCache.fresh, lastRefresh := none }

/-- The history after a sequence of calls. -/
def runCalls (jl : JwtLib) : List CacheCall → CacheHistory → CacheHistory
  | [], s => s
  | call :: rest, s =>
    runCalls jl rest
      { cache := call.run jl s.cache
        lastRefresh :=
          match call.refreshedAt jl s.cache with
          | some t => some t
          | none => s.lastRefresh }

/-- The invariant of the key cache with its history: no keys, no expiry and
no successful refresh so far, or a non-empty mapping that expires 10 minutes
after the most recent successful refresh. -/
def CacheHistory.Inv (s : CacheHistory) : Prop :=
  (s.cache.jwks = none ∧ s.cache.jwksExp = zeroTime ∧ s.lastRefresh = none) ∨
  (∃ (m : KeyMap) (t : Time), s.cache.jwks = some m ∧ m ≠ [] ∧ s.lastRefresh = some t ∧
    s.cache.jwksExp = t + 10 * minute ∧ t < s.cache.jwksExp)

/-! ## Lock discipline of the key cache -/

/-- The steps of a goroutine that concern the key cache: `jwksMu.Lock()`,
`jwksMu.Unlock()`, a read of `a.jwks` or `a.jwksExp`, the entry into
`refreshJWKS` and the return from it (after its writes, if any). -/
inductive Act where
  | lock
  | unlock
  | readCache
  | refreshBegin
  | refreshEnd
  deriving DecidableEq, Repr

/-- The steps of `refreshJWKS`. -/
def refreshActs : List Act := [Act.refreshBegin, Act.refreshEnd]

/-- The steps of `fetchKey`: lock, the test of `a.jwks` and `a.jwksExp`, the
refresh when the test asks for it, the read of the key, and the deferred
unlock. -/
def fetchKeyActs (refresh : Bool) : List Act :=
  [Act.lock, Act.readCache] ++ (if refresh then refreshActs else []) ++
    [Act.readCache, Act.unlock]

/-- The steps of `verifyGoogleToken` on a token that reaches the key lookup:
`fetchKey`, and when it returns nil (`miss`), `refreshJWKS(true)` and a second
`fetchKey`. -/
def verifyActs (refresh1 miss refresh2 : Bool) : List Act :=
  fetchKeyActs refresh1 ++ (if miss then refreshActs ++ fetchKeyActs refresh2 else [])

/-- A goroutine: the steps it has left, and whether it is inside
`refreshJWKS`. -/
structure Goroutine where
  todo : List Act
  refreshing : Bool
  deriving DecidableEq, Repr

/-- Goroutines sharing one `Authenticator`: which of them holds `jwksMu`, and
the state of each. -/
structure Sys where
  owner : Option Nat
  threads : List Goroutine
  deriving DecidableEq, Repr

/-- The system of goroutines that are about to run the given steps. -/
def Sys.start (progs : List (List Act)) : Sys :=
  { owner := none, threads := progs.map fun p => { todo := p, refreshing := false } }

/-- Goroutine `i` takes its next step; `none` when it has none left or is
blocked on the mutex. -/
def Sys.step (s : Sys) (i : Nat) : Option Sys :=
  match s.threads[i]? with
  | none => none
  | some g =>
    match g.todo with
    | [] => none
    | Act.lock :: rest =>
      if s.owner.isSome then none
      else some { owner := some i, threads := s.threads.set i { g with todo := rest } }
    | Act.unlock :: rest =>
      some { owner := none, threads := s.threads.set i { g with todo := rest } }
    | Act.readCache :: rest =>
      some { s with threads := s.threads.set i { g with todo := rest } }
    | Act.refreshBegin :: rest =>
      some { s with threads := s.threads.set i { todo := rest, refreshing := true } }
    | Act.refreshEnd :: rest =>
      some { s with threads := s.threads.set i { todo := rest, refreshing := false } }

/-- The system after the goroutines step in the order of the schedule. -/
def Sys.run (s : Sys) : List Nat → Option Sys
  | [] => some s
  | i :: rest => (s.step i).bind fun s1 => s1.run rest

/-- The goroutines that are inside `refreshJWKS`. -/
def Sys.refreshers (s : Sys) : List Nat :=
  (List.range s.threads.length).filter fun i =>
    match s.threads[i]? with
    | some g => g.refreshing
    | none => false

/-- Whether goroutine `i` is inside `refreshJWKS` without holding `jwksMu`. -/
def Sys.refreshesUnlocked (s : Sys) (i : Nat) : Bool :=
  s.refreshers.contains i && s.owner != some i

/-! ## `internal/config`: the order of the routes -/

/-- The comparator `less` given to `sort.SliceStable` in `FromEnv`. -/
def routeLess (ri rj : Route) : Bool :=
  if ri.Host != rj.Host then ri.Host != [] && rj.Host == []
  else ri.PathPrefix.length > rj.PathPrefix.length

/-- The inner loop of Go's `insertionSortLessFunc`: the element `x` moves
left past every element it is less than; `sorted` is the part before `x`,
last element first. -/
def insertLeft (less : Route → Route → Bool) (x : Route) : List Route → List Route
  | [] => [x]
  | p :: ps => if less x p then p :: insertLeft less x ps else x :: p :: ps

/-- Go's `insertionSortLessFunc` on a whole slice. -/
def insertionSort (less : Route → Route → Bool) (routes : List Route) : List Route :=
  (routes.foldl (fun sorted x => insertLeft less x sorted) []).reverse

/-- The call `sort.SliceStable(cfg.Routes, less)` of `FromEnv` on at most 20
routes, where Go's `sort.SliceStable` is `insertionSortLessFunc` on the whole
slice. -/
def sortRoutes (routes : List Route) : List Route :=
  insertionSort routeLess routes

/-! ## Concrete requests and tokens for the header, mode and token claims -/

/-- The request `appRequest` arriving with the two header lines
`X-Forwarded-For: 1.1.1.1` and `X-Forwarded-For: 2.2.2.2`. -/
def twoForwardedRequest : Request :=
  { appRequest with
    Header := Header.ofList
      [("X-Forwarded-For".toList, ["1.1.1.1".toList, "2.2.2.2".toList])] }

/-- The configuration `appConfig` with `AUTH_MODE=OIDC` and a secret. -/
def misspeltModeConfig : Config :=
  { appConfig with AuthMode := "OIDC".toList, SharedSecret := "s3cret".toList }

/-- A token library in which only base64 decoding matters: every header and
payload decodes to zero-valued structs and no signature verifies. -/
def base64Lib : JwtLib :=
  tokenLib { Alg := [], Kid := [], Typ := [] }
    { Iss := [], Aud := [], Exp := 0, Iat := 0, Email := [], EmailVerified := false, HD := [] }
    false

/-- The RSA key with modulus and exponent 65537. -/
def toyKey : PublicKey := { N := 65537, E := 65537 }

/-- A key cache holding `toyKey` under the identifier `k1`, valid until
1700000300 seconds after the epoch. -/
def warmCache : KeyCache :=
  { jwks := some [("k1".toList, toyKey)], jwksExp := 1700000300 * 1000000000 }

/-- A key-set entry of an elliptic-curve key. -/
def ecJwk : Jwk :=
  { Kty := "EC".toList, Kid := "k2".toList, Use := "sig".toList, Alg := "ES256".toList,
    N := [], E := [], X5c := [] }

/-- A refresh at 1700000400 seconds after the epoch whose response holds
only the elliptic-curve key. -/
def ecOnlyRefresh : RefreshEnv :=
  { nowCheck := 1700000400 * 1000000000
    resp := FetchResult.body [ecJwk]
    nowInstall := 1700000401 * 1000000000 }

/-- A key-set entry of an RSA key with modulus and exponent `AQAB`. -/
def rsaJwk : Jwk :=
  { Kty := "RSA".toList, Kid := "k1".toList, Use := "sig".toList, Alg := "RS256".toList,
    N := "AQAB".toList, E := "AQAB".toList, X5c := [] }

/-- A refresh whose response holds the RSA key `k1`, installed 1700000000
seconds after the epoch. -/
def rsaRefresh : RefreshEnv :=
  { nowCheck := 1700000000 * 1000000000
    resp := FetchResult.body [rsaJwk]
    nowInstall := 1700000000 * 1000000000 }

/-- The header of an RS256 token signed with the key `k1`. -/
def rs256Header : JwtHeader :=
  { Alg := "RS256".toList, Kid := "k1".toList, Typ := "JWT".toList }

/-- Claims of a Google token for the audience `client-1` and the verified
email `user@example.com`, with the given expiry. -/
def googleClaims (exp : Int) : Claims :=
  { Iss := "https://accounts.google.com".toList
    Aud := "client-1".toList
    Exp := exp
    Iat := exp - 3600
    Email := "user@example.com".toList
    EmailVerified := true
    HD := "example.com".toList }

/-- An authenticator in mode `google` for the client `client-1`, without
allow-lists. -/
def googleAuthenticator : Authenticator :=
  { Mode := ModeGoogle
    sharedSecret := []
    googleClientID := "client-1".toList
    allowedEmails := []
    allowedDomains := [] }

/-- The authenticator `googleAuthenticator` with the allowed domain
`example.com`. -/
def domainAuthenticator : Authenticator :=
  { googleAuthenticator with allowedDomains := ["example.com".toList] }

/-- A token of three base64 segments. -/
def sampleToken : GoString := "e30.e30.c2ln".toList

/-- A call of `verifyGoogleToken` 1700000000 seconds after the epoch, with
every fetch failing. -/
def verifyEnvAt1700000000 : VerifyEnv :=
  { now1 := 1700000000 * 1000000000
    refresh1 := { nowCheck := 1700000000 * 1000000000, resp := FetchResult.fetchError,
                  nowInstall := 1700000000 * 1000000000 }
    forced := { nowCheck := 1700000000 * 1000000000, resp := FetchResult.fetchError,
                nowInstall := 1700000000 * 1000000000 }
    now2 := 1700000000 * 1000000000
    refresh2 := { nowCheck := 1700000000 * 1000000000, resp := FetchResult.fetchError,
                  nowInstall := 1700000000 * 1000000000 }
    nowExp := 1700000000 * 1000000000 }

/-- The largest `int64`, 2^63 - 1. -/
def maxInt64 : Int := 9223372036854775807

/-- The claims `googleClaims` with the email `@example.com`, which has
nothing before the `@`. -/
def noLocalPartClaims (exp : Int) : Claims :=
  { googleClaims exp with Email := "@example.com".toList }

/-- The routes parsed from
`ROUTES=a.com/s=http://backend:9000/svc,b.com/m=...,a.com/long=...`. -/
def threeRoutes : List Route :=
  [{ Host := "a.com".toList, PathPrefix := "/s".toList, Target := backendSvc },
   { Host := "b.com".toList, PathPrefix := "/m".toList, Target := backendSvc },
   { Host := "a.com".toList, PathPrefix := "/long".toList, Target := backendSvc }]

/-- The steps of two goroutines that each run `verifyGoogleToken` on a token
whose key identifier is not in the valid cache: the first `fetchKey` does not
refresh and returns nil. -/
def twoMisses : Sys :=
  Sys.start [verifyActs false true false, verifyActs false true false]

/-! ## The loop of `Router.match` -/

theorem Rule.plen_nonneg (rl : Rule) : 0 ≤ rl.plen := by
  unfold Rule.plen
  split <;> omega

theorem matchLoop_cons_skip (host path : GoString) (rl : Rule) (rest : List Rule) (i : Nat)
    (best : Option Nat) (bestLen : Int) (h : rl.candidate host path = false) :
    matchLoop host path (rl :: rest) i best bestLen
      = matchLoop host path rest (i + 1) best bestLen := by
  unfold Rule.candidate at h
  rw [matchLoop]
  by_cases h1 : (rl.host != [] && rl.host != host) = true
  · simp [h1]
  · have h2 : (rl.pathPrefix == [] || hasPrefix path rl.pathPrefix) = false := by
      simp only [Bool.not_eq_true] at h1
      simpa [h1] using h
    rw [if_neg h1, if_neg (by rw [h2]; simp)]

theorem matchLoop_cons_take (host path : GoString) (rl : Rule) (rest : List Rule) (i : Nat)
    (best : Option Nat) (bestLen : Int) (h : rl.candidate host path = true)
    (hlt : bestLen < rl.plen) :
    matchLoop host path (rl :: rest) i best bestLen
      = matchLoop host path rest (i + 1) (some i) rl.plen := by
  unfold Rule.candidate at h
  unfold Rule.plen at hlt ⊢
  rw [matchLoop]
  simp only [Bool.and_eq_true, Bool.not_eq_true'] at h
  simp only [h.1, h.2, Bool.false_eq_true, if_false, if_true]
  simp only [gt_iff_lt, hlt, if_true]

theorem matchLoop_cons_keep (host path : GoString) (rl : Rule) (rest : List Rule) (i : Nat)
    (best : Option Nat) (bestLen : Int) (h : rl.candidate host path = true)
    (hle : rl.plen ≤ bestLen) :
    matchLoop host path (rl :: rest) i best bestLen
      = matchLoop host path rest (i + 1) best bestLen := by
  unfold Rule.candidate at h
  unfold Rule.plen at hle
  rw [matchLoop]
  simp only [Bool.and_eq_true, Bool.not_eq_true'] at h
  simp only [h.1, h.2, Bool.false_eq_true, if_false, if_true]
  simp only [gt_iff_lt, not_lt.mpr hle, if_false]

/-- The loop either keeps the incoming `best` (no candidate ranks above
`bestLen`), or returns the first candidate of maximal rank. -/
theorem matchLoop_spec (host path : GoString) :
    ∀ (rules : List Rule) (i : Nat) (best : Option Nat) (bestLen : Int),
      (matchLoop host path rules i best bestLen = best ∧
        ∀ rl ∈ rules, rl.candidate host path = true → rl.plen ≤ bestLen) ∨
      (∃ k rl, matchLoop host path rules i best bestLen = some (i + k) ∧
        rules[k]? = some rl ∧ rl.candidate host path = true ∧ bestLen < rl.plen ∧
        (∀ rl2 ∈ rules, rl2.candidate host path = true → rl2.plen ≤ rl.plen) ∧
        (∀ k2 rl2, k2 < k → rules[k2]? = some rl2 → rl2.candidate host path = true →
          rl2.plen < rl.plen)) := by
  intro rules
  induction rules with
  | nil =>
    intro i best bestLen
    left
    exact ⟨rfl, by simp⟩
  | cons rl rest ih =>
    intro i best bestLen
    cases hc : rl.candidate host path with
    | false =>
      rw [matchLoop_cons_skip host path rl rest i best bestLen hc]
      rcases ih (i + 1) best bestLen with ⟨hres, hall⟩ | ⟨k, r, hres, hk, hcand, hlt, hmax, hfirst⟩
      · left
        refine ⟨hres, ?_⟩
        intro rl2 hmem hc2
        rcases List.mem_cons.mp hmem with rfl | hmem
        · rw [hc] at hc2; exact absurd hc2 (by simp)
        · exact hall rl2 hmem hc2
      · right
        refine ⟨k + 1, r, ?_, by simpa using hk, hcand, hlt, ?_, ?_⟩
        · rw [hres]; congr 1; omega
        · intro rl2 hmem hc2
          rcases List.mem_cons.mp hmem with rfl | hmem
          · rw [hc] at hc2; exact absurd hc2 (by simp)
          · exact hmax rl2 hmem hc2
        · intro k2 rl2 hk2 hget hc2
          cases k2 with
          | zero =>
            simp only [List.getElem?_cons_zero, Option.some.injEq] at hget
            subst hget
            rw [hc] at hc2; exact absurd hc2 (by simp)
          | succ k2 =>
            exact hfirst k2 rl2 (by omega) (by simpa using hget) hc2
    | true =>
      by_cases hlt : bestLen < rl.plen
      · rw [matchLoop_cons_take host path rl rest i best bestLen hc hlt]
        rcases ih (i + 1) (some i) rl.plen with
          ⟨hres, hall⟩ | ⟨k, r, hres, hk, hcand, hlt2, hmax, hfirst⟩
        · right
          refine ⟨0, rl, by simpa using hres, by simp, hc, hlt, ?_, ?_⟩
          · intro rl2 hmem hc2
            rcases List.mem_cons.mp hmem with rfl | hmem
            · exact le_refl _
            · exact hall rl2 hmem hc2
          · intro k2 rl2 hk2
            omega
        · right
          refine ⟨k + 1, r, ?_, by simpa using hk, hcand, by omega, ?_, ?_⟩
          · rw [hres]; congr 1; omega
          · intro rl2 hmem hc2
            rcases List.mem_cons.mp hmem with rfl | hmem
            · omega
            · exact hmax rl2 hmem hc2
          · intro k2 rl2 hk2 hget hc2
            cases k2 with
            | zero =>
              simp only [List.getElem?_cons_zero, Option.some.injEq] at hget
              subst hget
              exact hlt2
            | succ k2 =>
              exact hfirst k2 rl2 (by omega) (by simpa using hget) hc2
      · have hle : rl.plen ≤ bestLen := not_lt.mp hlt
        rw [matchLoop_cons_keep host path rl rest i best bestLen hc hle]
        rcases ih (i + 1) best bestLen with
          ⟨hres, hall⟩ | ⟨k, r, hres, hk, hcand, hlt2, hmax, hfirst⟩
        · left
          refine ⟨hres, ?_⟩
          intro rl2 hmem hc2
          rcases List.mem_cons.mp hmem with rfl | hmem
          · exact hle
          · exact hall rl2 hmem hc2
        · right
          refine ⟨k + 1, r, ?_, by simpa using hk, hcand, hlt2, ?_, ?_⟩
          · rw [hres]; congr 1; omega
          · intro rl2 hmem hc2
            rcases List.mem_cons.mp hmem with rfl | hmem
            · omega
            · exact hmax rl2 hmem hc2
          · intro k2 rl2 hk2 hget hc2
            cases k2 with
            | zero =>
              simp only [List.getElem?_cons_zero, Option.some.injEq] at hget
              subst hget
              omega
            | succ k2 =>
              exact hfirst k2 rl2 (by omega) (by simpa using hget) hc2

/-- `Router.match` returns nil exactly when the table has no candidate. -/
theorem matchIndex_eq_none_iff (rules : List Rule) (host path : GoString) :
    matchIndex rules host path = none ↔ ∀ rl ∈ rules, rl.candidate host path = false := by
  unfold matchIndex
  rcases matchLoop_spec host path rules 0 none (-1) with
    ⟨hres, hall⟩ | ⟨k, r, hres, hk, hcand, _, _, _⟩
  · constructor
    · intro _ rl hmem
      cases hc : rl.candidate host path with
      | false => rfl
      | true =>
        have h1 := hall rl hmem hc
        have h2 := rl.plen_nonneg
        omega
    · intro _; exact hres
  · constructor
    · intro h; rw [hres] at h; exact absurd h (by simp)
    · intro h
      have := h r (List.getElem?_mem hk)
      rw [hcand] at this
      exact absurd this (by simp)

/-- What `Router.match` returns when it returns a rule: a candidate of maximal
rank, preceded by no candidate of the same rank. -/
theorem matchIndex_eq_some (rules : List Rule) (host path : GoString) (k : Nat)
    (h : matchIndex rules host path = some k) :
    ∃ rl, rules[k]? = some rl ∧ rl.candidate host path = true ∧
      (∀ rl2 ∈ rules, rl2.candidate host path = true → rl2.plen ≤ rl.plen) ∧
      (∀ k2 rl2, k2 < k → rules[k2]? = some rl2 → rl2.candidate host path = true →
        rl2.plen < rl.plen) := by
  unfold matchIndex at h
  rcases matchLoop_spec host path rules 0 none (-1) with
    ⟨hres, _⟩ | ⟨k1, r, hres, hk, hcand, _, hmax, hfirst⟩
  · rw [hres] at h; exact absurd h (by simp)
  · rw [hres] at h
    simp only [zero_add, Option.some.injEq] at h
    subst h
    exact ⟨r, hk, hcand, hmax, hfirst⟩

/-- The candidate test of the loop, in the words of the specification: the
host is empty or equal to the request host, and the prefix is empty or a
prefix of the request path. -/
theorem Rule.candidate_iff (rl : Rule) (host path : GoString) :
    rl.candidate host path = true ↔
      (rl.host = [] ∨ rl.host = host) ∧ (rl.pathPrefix = [] ∨ rl.pathPrefix <+: path) := by
  unfold Rule.candidate hasPrefix
  by_cases h1 : rl.host = [] <;> by_cases h2 : rl.host = host <;>
    by_cases h3 : rl.pathPrefix = [] <;> simp [h1, h2, h3]

theorem matchRule_eq_some_iff (rules : List Rule) (host path : GoString) (r : Rule) :
    matchRule rules host path = some r ↔
      ∃ k, matchIndex rules host path = some k ∧ rules[k]? = some r := by
  unfold matchRule
  cases matchIndex rules host path <;> simp

/-- Two rules of the same host tier compare by rank as their prefixes
compare by length. -/
theorem Rule.plen_le_iff_of_same_tier (c r : Rule) (h : c.host = [] ↔ r.host = []) :
    c.plen ≤ r.plen ↔ c.pathPrefix.length ≤ r.pathPrefix.length := by
  unfold Rule.plen
  by_cases hc : c.host = []
  · have hr : r.host = [] := h.mp hc
    simp [hc, hr]
  · have hr : ¬ r.host = [] := fun hr => hc (h.mpr hr)
    simp [hc, hr]

theorem Rule.plen_lt_iff_of_same_tier (c r : Rule) (h : c.host = [] ↔ r.host = []) :
    c.plen < r.plen ↔ c.pathPrefix.length < r.pathPrefix.length := by
  unfold Rule.plen
  by_cases hc : c.host = []
  · have hr : r.host = [] := h.mp hc
    simp [hc, hr]
  · have hr : ¬ r.host = [] := fun hr => hc (h.mpr hr)
    simp [hc, hr]


/-! ## Host tier against prefix length (C1) -/

theorem hasPrefix_self (s : GoString) : hasPrefix s s = true := by
  unfold hasPrefix
  exact List.isPrefixOf_iff_prefix.mpr (List.prefix_refl s)

theorem hasPrefix_slashes_succ (n : Nat) : hasPrefix (slashes (n + 1)) ['/'] = true := by
  unfold hasPrefix slashes
  rw [List.replicate_succ]
  simp [List.isPrefixOf]

theorem hostRootRule_plen : hostRootRule.plen = 1000001 := by decide

theorem wildcardSlashesRule_plen (n : Nat) : (wildcardSlashesRule n).plen = (n : Int) := by
  unfold Rule.plen wildcardSlashesRule mkRule slashes
  simp

theorem hostRootRule_candidate (n : Nat) :
    hostRootRule.candidate "a.com".toList (slashes (n + 1)) = true := by
  have h := hasPrefix_slashes_succ n
  unfold Rule.candidate
  have h1 : hostRootRule.pathPrefix = ['/'] := rfl
  have h2 : hostRootRule.host = "a.com".toList := rfl
  rw [h1, h2, h]
  decide

theorem wildcardSlashesRule_candidate (n : Nat) (host : GoString) :
    (wildcardSlashesRule n).candidate host (slashes n) = true := by
  unfold Rule.candidate
  have h1 : (wildcardSlashesRule n).pathPrefix = slashes n := rfl
  have h2 : (wildcardSlashesRule n).host = [] := rfl
  rw [h1, h2, hasPrefix_self]
  simp

/-- A host-less rule whose prefix is longer than 1000001 bytes is returned
although a rule with a host is a candidate. -/
theorem matchRule_long_wildcard (n : Nat) (h : 1000001 < n + 1) :
    matchRule [hostRootRule, wildcardSlashesRule (n + 1)] "a.com".toList (slashes (n + 1))
      = some (wildcardSlashesRule (n + 1)) := by
  have hidx : matchIndex [hostRootRule, wildcardSlashesRule (n + 1)] "a.com".toList
      (slashes (n + 1)) = some 1 := by
    unfold matchIndex
    rw [matchLoop_cons_take _ _ _ _ _ _ _ (hostRootRule_candidate n)
      (by rw [hostRootRule_plen]; omega)]
    rw [matchLoop_cons_take _ _ _ _ _ _ _ (wildcardSlashesRule_candidate (n + 1) _)
      (by rw [hostRootRule_plen, wildcardSlashesRule_plen]; omega)]
    rfl
  unfold matchRule
  rw [hidx]
  rfl

/-- C1 (evaluation at the failing input): with the table
`[{host a.com, prefix /}, {host "", prefix of 1000002 slashes}]` and the request
`a.com` with a path of 1000002 slashes, the rule with host `a.com` is a
candidate, and `Router.match` returns the host-less rule. -/
theorem C1_long_wildcard_beats_host :
    hostRootRule.host ≠ [] ∧
    hostRootRule.candidate "a.com".toList (slashes 1000002) = true ∧
    (wildcardSlashesRule 1000002).host = [] ∧
    matchRule [hostRootRule, wildcardSlashesRule 1000002] "a.com".toList (slashes 1000002)
      = some (wildcardSlashesRule 1000002) :=
  ⟨by decide, hostRootRule_candidate 1000001, rfl, matchRule_long_wildcard 1000001 (by omega)⟩

/-- With every host-less candidate's prefix shorter than 1000000 bytes, a
candidate with a host makes `Router.match` return a rule with a host. -/
theorem matchRule_prefers_host (rules : List Rule) (host path : GoString) (c : Rule)
    (hmem : c ∈ rules) (hcand : c.candidate host path = true) (hhost : c.host ≠ [])
    (hshort : ∀ w ∈ rules, w.host = [] → w.candidate host path = true →
      w.pathPrefix.length < 1000000) :
    ∃ r, matchRule rules host path = some r ∧ r.host ≠ [] := by
  cases hidx : matchIndex rules host path with
  | none =>
    have := (matchIndex_eq_none_iff rules host path).mp hidx c hmem
    rw [hcand] at this
    exact absurd this (by simp)
  | some k =>
    obtain ⟨r, hk, hrc, hmax, _⟩ := matchIndex_eq_some rules host path k hidx
    refine ⟨r, (matchRule_eq_some_iff rules host path r).mpr ⟨k, hidx, hk⟩, ?_⟩
    intro hr
    have h1 := hmax c hmem hcand
    have h2 := hshort r (List.getElem?_mem hk) hr hrc
    unfold Rule.plen at h1
    simp only [hr, bne_self_eq_false, Bool.false_eq_true, if_false] at h1
    have h3 : (c.host != []) = true := by simpa using hhost
    simp only [h3, if_true] at h1
    omega

/-! ## Longest prefix, candidates and table order (C2, C3, C4) -/

/-- C2: if `Router.match` returns rule `r`, no candidate of the same host tier
as `r` (both with a host, or both without) has a strictly longer path prefix
than `r`. -/
theorem C2_longest_prefix_in_tier (rules : List Rule) (host path : GoString) (r : Rule)
    (h : matchRule rules host path = some r) :
    ∀ c ∈ rules, ((c.host = [] ∨ c.host = host) ∧ (c.pathPrefix = [] ∨ c.pathPrefix <+: path)) →
      (c.host = [] ↔ r.host = []) → ¬ r.pathPrefix.length < c.pathPrefix.length := by
  intro c hmem hcand htier
  obtain ⟨k, hidx, hk⟩ := (matchRule_eq_some_iff rules host path r).mp h
  obtain ⟨r2, hk2, _, hmax, _⟩ := matchIndex_eq_some rules host path k hidx
  rw [hk] at hk2
  cases hk2
  have hle := hmax c hmem ((c.candidate_iff host path).mpr hcand)
  have := (Rule.plen_le_iff_of_same_tier c r htier).mp hle
  omega

/-- C2 at the rules `{a.com, /api}`, `{a.com, /api/v1}` and the request
`a.com/api/v1/x`: the `/api/v1` rule is selected, and no candidate of its tier
has a longer prefix. -/
theorem C2_longest_prefix_in_tier_witness :
    matchRule [hostApiRule, hostApiV1Rule] "a.com".toList "/api/v1/x".toList
      = some hostApiV1Rule ∧
    ∀ c ∈ [hostApiRule, hostApiV1Rule],
      ((c.host = [] ∨ c.host = "a.com".toList) ∧
        (c.pathPrefix = [] ∨ c.pathPrefix <+: "/api/v1/x".toList)) →
      (c.host = [] ↔ hostApiV1Rule.host = []) →
      ¬ hostApiV1Rule.pathPrefix.length < c.pathPrefix.length :=
  ⟨by decide,
   C2_longest_prefix_in_tier [hostApiRule, hostApiV1Rule] "a.com".toList "/api/v1/x".toList
     hostApiV1Rule (by decide)⟩

/-- C3: `Router.match` returns a rule if and only if the table contains a
candidate (host empty or equal to the request host, prefix empty or a prefix
of the request path); the returned rule is in the table and is a candidate;
on the empty table no rule is returned; a rule with an empty prefix whose
host admits the request is a candidate for every path. -/
theorem C3_match_iff_candidate (rules : List Rule) (host path : GoString) :
    ((∃ r, matchRule rules host path = some r) ↔
      ∃ c ∈ rules, (c.host = [] ∨ c.host = host) ∧ (c.pathPrefix = [] ∨ c.pathPrefix <+: path)) ∧
    (∀ r, matchRule rules host path = some r →
      r ∈ rules ∧ (r.host = [] ∨ r.host = host) ∧ (r.pathPrefix = [] ∨ r.pathPrefix <+: path)) ∧
    matchRule [] host path = none ∧
    (∀ c ∈ rules, c.pathPrefix = [] → (c.host = [] ∨ c.host = host) →
      ∃ r, matchRule rules host path = some r) := by
  have hsome : ∀ r, matchRule rules host path = some r →
      r ∈ rules ∧ (r.host = [] ∨ r.host = host) ∧ (r.pathPrefix = [] ∨ r.pathPrefix <+: path) := by
    intro r h
    obtain ⟨k, hidx, hk⟩ := (matchRule_eq_some_iff rules host path r).mp h
    obtain ⟨r2, hk2, hc, _, _⟩ := matchIndex_eq_some rules host path k hidx
    rw [hk] at hk2
    cases hk2
    exact ⟨List.getElem?_mem hk, (r.candidate_iff host path).mp hc⟩
  have hex : ∀ (rs : List Rule) (c : Rule), c ∈ rs →
      ((c.host = [] ∨ c.host = host) ∧ (c.pathPrefix = [] ∨ c.pathPrefix <+: path)) →
      ∃ r, matchRule rs host path = some r := by
    intro rs c hmem hc
    cases hidx : matchIndex rs host path with
    | none =>
      have := (matchIndex_eq_none_iff rs host path).mp hidx c hmem
      rw [(c.candidate_iff host path).mpr hc] at this
      exact absurd this (by simp)
    | some k =>
      obtain ⟨r, hk, _⟩ := matchIndex_eq_some rs host path k hidx
      exact ⟨r, (matchRule_eq_some_iff rs host path r).mpr ⟨k, hidx, hk⟩⟩
  refine ⟨⟨?_, ?_⟩, hsome, rfl, ?_⟩
  · rintro ⟨r, h⟩
    exact ⟨r, (hsome r h).1, (hsome r h).2⟩
  · rintro ⟨c, hmem, hc⟩
    exact hex rules c hmem hc
  · intro c hmem hp hh
    exact hex rules c hmem ⟨hh, Or.inl hp⟩

/-- C4: the rule `Router.match` returns, at index `k` of the table, is
preceded by no candidate of the same host tier and the same prefix length. -/
theorem C4_first_of_equal_rank (rules : List Rule) (host path : GoString) (k : Nat)
    (h : matchIndex rules host path = some k) :
    ∃ r, rules[k]? = some r ∧ matchRule rules host path = some r ∧
      ∀ j c, j < k → rules[j]? = some c →
        ((c.host = [] ∨ c.host = host) ∧ (c.pathPrefix = [] ∨ c.pathPrefix <+: path)) →
        ¬ ((c.host = [] ↔ r.host = []) ∧ c.pathPrefix.length = r.pathPrefix.length) := by
  obtain ⟨r, hk, _, _, hfirst⟩ := matchIndex_eq_some rules host path k h
  refine ⟨r, hk, (matchRule_eq_some_iff rules host path r).mpr ⟨k, h, hk⟩, ?_⟩
  rintro j c hj hget hcand ⟨htier, hlen⟩
  have hlt := hfirst j c hj hget ((c.candidate_iff host path).mpr hcand)
  have := (Rule.plen_lt_iff_of_same_tier c r htier).mp hlt
  omega

/-- C4 at two rules `{a.com, /api}` with different targets, after the rule
`{"", /api/v2}`, and the request `a.com/api/v2`: the first of the two equally
ranked rules, at index 1, is returned. -/
theorem C4_first_of_equal_rank_witness :
    ∃ r, [wildcardApiV2Rule, hostApiRule, hostApiRuleAlt][1]? = some r ∧
      matchRule [wildcardApiV2Rule, hostApiRule, hostApiRuleAlt] "a.com".toList
        "/api/v2".toList = some r ∧
      ∀ j c, j < 1 → [wildcardApiV2Rule, hostApiRule, hostApiRuleAlt][j]? = some c →
        ((c.host = [] ∨ c.host = "a.com".toList) ∧
          (c.pathPrefix = [] ∨ c.pathPrefix <+: "/api/v2".toList)) →
        ¬ ((c.host = [] ↔ r.host = []) ∧ c.pathPrefix.length = r.pathPrefix.length) :=
  C4_first_of_equal_rank [wildcardApiV2Rule, hostApiRule, hostApiRuleAlt] "a.com".toList
    "/api/v2".toList 1 (by decide)

/-! ## Path join and prefix stripping (C5, C6, C7) -/

theorem hasSuffix_slash_iff (a : GoString) :
    hasSuffix a ['/'] = true ↔ a.getLast? = some '/' := by
  unfold hasSuffix
  rw [List.isSuffixOf_iff_suffix]
  constructor
  · rintro ⟨t, rfl⟩
    simp
  · intro h
    exact ⟨a.dropLast, List.dropLast_append_getLast? '/' (by simp [h])⟩

theorem hasPrefix_slash_iff (b : GoString) :
    hasPrefix b ['/'] = true ↔ b.head? = some '/' := by
  unfold hasPrefix
  cases b with
  | nil => simp [List.isPrefixOf]
  | cons c cs =>
    simp only [List.isPrefixOf, Bool.and_true, beq_iff_eq, List.head?_cons, Option.some.injEq]
    exact eq_comm

/-- C5: `singleJoiningSlash(a, b)` is `a` without one trailing slash, a slash,
and `b` without one leading slash; `("/svc/", "x")` and `("/svc", "/x")` both
give `/svc/x`. -/
theorem C5_single_joining_slash (a b : GoString) :
    singleJoiningSlash a b
      = (if a.getLast? = some '/' then a.dropLast else a) ++ ['/'] ++
        (if b.head? = some '/' then b.tail else b) ∧
    singleJoiningSlash "/svc/".toList "x".toList = "/svc/x".toList ∧
    singleJoiningSlash "/svc".toList "/x".toList = "/svc/x".toList := by
  refine ⟨?_, by decide, by decide⟩
  unfold singleJoiningSlash
  by_cases ha : a.getLast? = some '/'
  · have ha2 : hasSuffix a ['/'] = true := (hasSuffix_slash_iff a).mpr ha
    have hsplit : a.dropLast ++ ['/'] = a := List.dropLast_append_getLast? '/' (by simp [ha])
    by_cases hb : b.head? = some '/'
    · have hb2 : hasPrefix b ['/'] = true := (hasPrefix_slash_iff b).mpr hb
      simp only [ha2, hb2, ha, hb, Bool.and_self, if_true, List.drop_one]
      rw [hsplit]
    · have hb2 : hasPrefix b ['/'] = false := by
        rw [← Bool.not_eq_true, hasPrefix_slash_iff]; exact hb
      simp only [ha2, hb2, ha, hb, Bool.and_false, Bool.false_eq_true, if_false, if_true,
        Bool.not_true, Bool.false_and]
      rw [hsplit]
  · have ha2 : hasSuffix a ['/'] = false := by
      rw [← Bool.not_eq_true, hasSuffix_slash_iff]; exact ha
    by_cases hb : b.head? = some '/'
    · have hb2 : hasPrefix b ['/'] = true := (hasPrefix_slash_iff b).mpr hb
      simp only [ha2, hb2, ha, hb, Bool.false_and, Bool.false_eq_true, if_false, if_true,
        Bool.not_true, Bool.and_false]
      cases b with
      | nil => simp at hb
      | cons c cs =>
        simp only [List.head?_cons, Option.some.injEq] at hb
        subst hb
        simp
    · have hb2 : hasPrefix b ['/'] = false := by
        rw [← Bool.not_eq_true, hasPrefix_slash_iff]; exact hb
      simp [ha2, hb2, ha, hb]

/-- C6 as stated fails: for prefix `/api` and path `/api` the stripping step
of `Router.ServeHTTP` does not leave `/`. -/
theorem C6_exact_prefix_not_root :
    ¬ (stripPrefix "/api".toList "/api".toList = "/".toList) := by decide

/-- C6, amended: when the request path is exactly equal to the matched rule's
non-empty prefix, the stripping step of `Router.ServeHTTP` leaves the path
unchanged (the prefix is not removed). -/
theorem C6_exact_prefix_unchanged (p : GoString) (h : p ≠ []) : stripPrefix p p = p := by
  unfold stripPrefix
  simp [hasPrefix_self, h]

/-- C6, amended, at prefix `/api` and path `/api`. -/
theorem C6_exact_prefix_unchanged_witness :
    "/api".toList ≠ [] ∧ stripPrefix "/api".toList "/api".toList = "/api".toList :=
  ⟨by decide, C6_exact_prefix_unchanged "/api".toList (by decide)⟩

theorem hasPrefix_append (p r : GoString) : hasPrefix (p ++ r) p = true := by
  unfold hasPrefix
  exact List.isPrefixOf_iff_prefix.mpr (List.prefix_append p r)

/-- Stripping the prefix `p` from `p ++ r` leaves `r` when `r` is not empty. -/
theorem stripPrefix_append (p r : GoString) (hr : r ≠ []) : stripPrefix p (p ++ r) = r := by
  unfold stripPrefix
  by_cases hp : p = []
  · simp [hp]
  · have hne : p ++ r ≠ p := by
      intro h
      exact hr (List.append_right_eq_self.mp h)
    have htrim : trimPrefix (p ++ r) p = r := by
      unfold trimPrefix
      rw [hasPrefix_append, if_pos rfl, List.drop_left]
    simp [hp, hasPrefix_append, hne, htrim, hr]

/-- The director sets scheme and host of the URL to the target's and the
path to the join of the target's path and the request path. -/
theorem director_url (lib : GoLib) (rp : ReverseProxy) (req : Request) :
    (director lib rp req).URL
      = { Scheme := rp.target.Scheme, Host := rp.target.Host,
          Path := singleJoiningSlash rp.target.Path req.URL.Path } := by
  unfold director
  simp only
  repeat' split
  all_goals rfl

theorem matchRule_mem (rules : List Rule) (host path : GoString) (r : Rule)
    (h : matchRule rules host path = some r) : r ∈ rules := by
  obtain ⟨k, _, hk⟩ := (matchRule_eq_some_iff rules host path r).mp h
  exact List.getElem?_mem hk

/-- The proxy of a rule built by `NewRouter` forwards to the rule's target. -/
theorem NewRouter_rp_target (lib : GoLib) (cfg : Config) (m : Rule)
    (h : m ∈ (NewRouter lib cfg).rules) : m.rp.target = m.target := by
  unfold NewRouter at h
  simp only [List.mem_map] at h
  obtain ⟨rt, _, rfl⟩ := h
  rfl

/-- C7: for a request whose path is `p ++ r` with `r` non-empty, matched to a
rule with prefix `p` and target `t`, `Router.ServeHTTP` forwards an outbound
request with scheme `t.Scheme`, host `t.Host` and path
`singleJoiningSlash(t.Path, r)`. -/
theorem C7_outbound_request (lib : GoLib) (cfg : Config) (req : Request) (m : Rule)
    (r : GoString)
    (hm : matchRule (NewRouter lib cfg).rules (lib.toLower req.Host) req.URL.Path = some m)
    (hpath : req.URL.Path = m.pathPrefix ++ r) (hr : r ≠ []) :
    ∃ out, (NewRouter lib cfg).ServeHTTP lib req = Outcome.forwarded out ∧
      out.URL.Scheme = m.target.Scheme ∧ out.URL.Host = m.target.Host ∧
      out.URL.Path = singleJoiningSlash m.target.Path r := by
  have htarget := NewRouter_rp_target lib cfg m (matchRule_mem _ _ _ m hm)
  refine ⟨director lib m.rp
    { req with URL := { req.URL with Path := stripPrefix m.pathPrefix req.URL.Path } }, ?_, ?_⟩
  · unfold Router.ServeHTTP
    simp only [hm]
  · rw [director_url, htarget]
    refine ⟨rfl, rfl, ?_⟩
    simp only
    rw [hpath, stripPrefix_append m.pathPrefix r hr]

/-- C7 at host `app.internal`, path `/api/v1/widgets` and the single rule
`{app.internal, /api/v1, http://backend:9000/svc}`: the outbound request has
scheme `http`, host `backend:9000`, path `/svc/widgets`. -/
theorem C7_outbound_request_witness :
    matchRule (NewRouter asciiLib appConfig).rules (asciiLib.toLower appRequest.Host)
      appRequest.URL.Path = some appRule ∧
    appRequest.URL.Path = appRule.pathPrefix ++ "/widgets".toList ∧
    "/widgets".toList ≠ [] ∧
    ∃ out, (NewRouter asciiLib appConfig).ServeHTTP asciiLib appRequest = Outcome.forwarded out ∧
      out.URL.Scheme = "http".toList ∧ out.URL.Host = "backend:9000".toList ∧
      out.URL.Path = "/svc/widgets".toList :=
  ⟨by decide, by decide, by decide,
   C7_outbound_request asciiLib appConfig appRequest appRule "/widgets".toList
     (by decide) (by decide) (by decide)⟩

/-! ## Authorization modes and construction (C8, C9, C10) -/

/-- C8: in mode `shared_secret`, `authorized` returns true if and only if the
bearer token of the `Authorization` header (the header lowercased starts with
`bearer `; the text after the first seven bytes, trimmed) is non-empty and
equal to the configured secret. -/
theorem C8_shared_secret_iff (lib : GoLib) (verify : GoString → Bool) (a : Authenticator)
    (r : Request) (hmode : a.Mode = ModeSharedSecret) :
    a.authorized lib verify r = true ↔
      ∃ token,
        token = (if "bearer ".toList <+: lib.toLower (Header.get lib r.Header "Authorization".toList)
                 then lib.trimSpace ((Header.get lib r.Header "Authorization".toList).drop 7)
                 else []) ∧
        token ≠ [] ∧ token = a.sharedSecret := by
  have htok : bearerToken lib r
      = (if "bearer ".toList <+: lib.toLower (Header.get lib r.Header "Authorization".toList)
         then lib.trimSpace ((Header.get lib r.Header "Authorization".toList).drop 7)
         else []) := by
    unfold bearerToken hasPrefix
    simp only [List.isPrefixOf_iff_prefix]
    rfl
  unfold Authenticator.authorized
  simp only [hmode, if_true]
  rw [htok]
  constructor
  · intro h
    simp only [Bool.and_eq_true, bne_iff_ne, ne_eq, beq_iff_eq] at h
    exact ⟨_, rfl, h.1, h.2⟩
  · rintro ⟨token, rfl, hne, heq⟩
    simp only [Bool.and_eq_true, bne_iff_ne, ne_eq, beq_iff_eq]
    exact ⟨hne, heq⟩

/-- C8 at secret `s3cret`: the header `BEARER  s3cret` authorizes, the
header `Bearer other` does not. -/
theorem C8_shared_secret_iff_witness :
    secretAuthenticator.Mode = ModeSharedSecret ∧
    secretAuthenticator.authorized asciiLib (fun _ => true) secretRequest = true ∧
    secretAuthenticator.authorized asciiLib (fun _ => true) wrongSecretRequest = false ∧
    (secretAuthenticator.authorized asciiLib (fun _ => true) secretRequest = true ↔
      ∃ token,
        token = (if "bearer ".toList <+:
                    asciiLib.toLower (Header.get asciiLib secretRequest.Header "Authorization".toList)
                 then asciiLib.trimSpace
                    ((Header.get asciiLib secretRequest.Header "Authorization".toList).drop 7)
                 else []) ∧
        token ≠ [] ∧ token = secretAuthenticator.sharedSecret) :=
  ⟨rfl, by decide, by decide,
   C8_shared_secret_iff asciiLib (fun _ => true) secretAuthenticator secretRequest rfl⟩

/-- C9: in mode `both`, `authorized` returns true if and only if the
shared-secret check or the OIDC check succeeds; it equals `authorized` in mode
`shared_secret` or `authorized` in mode `google`, for the same request,
secret, client ID and allow-lists, whatever the outcome `verify` of the OIDC
check on each token. -/
theorem C9_both_is_secret_or_google (lib : GoLib) (verify : GoString → Bool)
    (a : Authenticator) (r : Request) :
    Authenticator.authorized lib verify { a with Mode := ModeBoth } r
      = (Authenticator.authorized lib verify { a with Mode := ModeSharedSecret } r ||
         Authenticator.authorized lib verify { a with Mode := ModeGoogle } r) ∧
    (Authenticator.authorized lib verify { a with Mode := ModeBoth } r = true ↔
      (bearerToken lib r ≠ [] ∧ bearerToken lib r = a.sharedSecret) ∨
      verify (cookieFallback lib r (bearerToken lib r)) = true) := by
  have h1 : ModeBoth ≠ ModeSharedSecret := by decide
  have h2 : ModeBoth ≠ ModeGoogle := by decide
  have h3 : ModeGoogle ≠ ModeSharedSecret := by decide
  unfold Authenticator.authorized
  simp only [h1, h2, h3, if_true, if_false]
  by_cases hne : bearerToken lib r = []
  · by_cases heq : bearerToken lib r = a.sharedSecret <;> simp [hne, heq]
  · by_cases heq : bearerToken lib r = a.sharedSecret
    · have hs : ¬ a.sharedSecret = [] := by rw [← heq]; exact hne
      simp [hne, heq, hs]
    · simp [hne, heq]

/-- C10: `NewAuthenticator` returns an error if and only if the lowercased
mode is `shared_secret` or `both` and the trimmed secret is empty, or the mode
is `google` or `both` and the trimmed client ID is empty; an authenticator it
returns has a non-empty secret in the modes `shared_secret` and `both`, and a
non-empty client ID in the modes `google` and `both`. -/
theorem C10_new_authenticator_error_iff (lib : GoLib) (cfg : Config) :
    ((∃ e, NewAuthenticator lib cfg = Except.error e) ↔
      ((lib.toLower cfg.AuthMode = ModeSharedSecret ∨ lib.toLower cfg.AuthMode = ModeBoth) ∧
        lib.trimSpace cfg.SharedSecret = []) ∨
      ((lib.toLower cfg.AuthMode = ModeGoogle ∨ lib.toLower cfg.AuthMode = ModeBoth) ∧
        lib.trimSpace cfg.GoogleClientID = [])) ∧
    (∀ a, NewAuthenticator lib cfg = Except.ok a →
      a.Mode = lib.toLower cfg.AuthMode ∧
      ((a.Mode = ModeSharedSecret ∨ a.Mode = ModeBoth) → a.sharedSecret ≠ []) ∧
      ((a.Mode = ModeGoogle ∨ a.Mode = ModeBoth) → a.googleClientID ≠ [])) := by
  have h1 : ModeOff ≠ ModeSharedSecret := by decide
  have h2 : ModeOff ≠ ModeGoogle := by decide
  have h3 : ModeOff ≠ ModeBoth := by decide
  unfold NewAuthenticator
  simp only [beq_iff_eq, Bool.and_eq_true, Bool.or_eq_true]
  by_cases hoff : lib.toLower cfg.AuthMode = ModeOff
  · simp [hoff, h1, h2, h3]
  · by_cases hs : (lib.toLower cfg.AuthMode = ModeSharedSecret ∨
        lib.toLower cfg.AuthMode = ModeBoth) ∧ lib.trimSpace cfg.SharedSecret = []
    · simp [hoff, hs]
    · by_cases hg : (lib.toLower cfg.AuthMode = ModeGoogle ∨
          lib.toLower cfg.AuthMode = ModeBoth) ∧ lib.trimSpace cfg.GoogleClientID = []
      · simp [hoff, hs, hg]
      · simp only [hoff, hs, hg, if_false, or_self, iff_false, not_exists]
        refine ⟨fun e h => Except.noConfusion h, ?_⟩
        intro a ha
        cases ha
        refine ⟨rfl, ?_, ?_⟩
        · intro hm hsec
          exact hs ⟨hm, hsec⟩
        · intro hm hcid
          exact hg ⟨hm, hcid⟩

/-! ## Forwarded-for header (C15) -/

/-- After `appendHeader` the first value under the key is the value alone
when `Get` gave the empty string before, and the previous first value, a
comma, a blank and the value otherwise; it is the only value under the key. -/
theorem appendHeader_values (lib : GoLib) (h : Header) (k v : GoString) :
    appendHeader lib h k v (lib.canonicalKey k)
      = [if Header.get lib h k = [] then v else Header.get lib h k ++ [',', ' '] ++ v] := by
  unfold appendHeader
  by_cases hv : Header.get lib h k = []
  · simp [hv, Header.set]
  · simp [hv, Header.set]

/-- C15 (evaluation at the failing input): a request that arrives with the
two values `1.1.1.1` and `2.2.2.2` under `X-Forwarded-For`, from the address
`10.0.0.7:51234`, leaves the director with the single value
`1.1.1.1, 10.0.0.7`; the value `2.2.2.2` is dropped. -/
theorem C15_second_forwarded_value_dropped :
    twoForwardedRequest.Header "X-Forwarded-For".toList
      = ["1.1.1.1".toList, "2.2.2.2".toList] ∧
    asciiLib.splitHostPort twoForwardedRequest.RemoteAddr
      = some ("10.0.0.7".toList, "51234".toList) ∧
    (director asciiLib appRule.rp twoForwardedRequest).Header "X-Forwarded-For".toList
      = ["1.1.1.1, 10.0.0.7".toList] := by
  decide

/-! ## The stripped path is never empty (C17) -/

theorem hasPrefix_eq_append (path pfx : GoString) (h : hasPrefix path pfx = true) :
    path = pfx ++ path.drop pfx.length := by
  unfold hasPrefix at h
  obtain ⟨t, rfl⟩ := List.isPrefixOf_iff_prefix.mp h
  rw [List.drop_left]

/-- C17: for a request with a non-empty path and the rule `m` returned by
`Router.match`, the path left by the prefix-stripping step of
`Router.ServeHTTP` is not empty; when the path starts with the prefix and is
not equal to it, the result is the part of the path after the prefix, and
`strings.TrimPrefix` does not give the empty string, so the substitution of
`/` is not reached. -/
theorem C17_stripped_path_nonempty (rules : List Rule) (host path : GoString) (m : Rule)
    (_hm : matchRule rules host path = some m) (hp : path ≠ []) :
    stripPrefix m.pathPrefix path ≠ [] ∧
    (hasPrefix path m.pathPrefix = true → path ≠ m.pathPrefix →
      stripPrefix m.pathPrefix path = path.drop m.pathPrefix.length ∧
      trimPrefix path m.pathPrefix = path.drop m.pathPrefix.length ∧
      trimPrefix path m.pathPrefix ≠ []) := by
  have key : hasPrefix path m.pathPrefix = true → path ≠ m.pathPrefix →
      stripPrefix m.pathPrefix path = path.drop m.pathPrefix.length ∧
      trimPrefix path m.pathPrefix = path.drop m.pathPrefix.length ∧
      trimPrefix path m.pathPrefix ≠ [] := by
    intro hpre hne
    have hsplit := hasPrefix_eq_append path m.pathPrefix hpre
    have hr : path.drop m.pathPrefix.length ≠ [] := by
      intro h0
      rw [h0, List.append_nil] at hsplit
      exact hne hsplit
    have htrim : trimPrefix path m.pathPrefix = path.drop m.pathPrefix.length := by
      unfold trimPrefix
      rw [if_pos hpre]
    refine ⟨?_, htrim, by rw [htrim]; exact hr⟩
    rw [hsplit, stripPrefix_append m.pathPrefix _ hr, List.drop_left]
  refine ⟨?_, key⟩
  by_cases hpre : hasPrefix path m.pathPrefix = true
  · by_cases hne : path = m.pathPrefix
    · rw [← hne]
      unfold stripPrefix
      simp [hp]
    · obtain ⟨h1, h2, h3⟩ := key hpre hne
      rw [h1, ← h2]
      exact h3
  · unfold stripPrefix
    simp [hpre, hp]

/-- C17 at the rule `{app.internal, /api/v1}` and the path
`/api/v1/widgets`: the stripped path is `/widgets`. -/
theorem C17_stripped_path_nonempty_witness :
    matchRule [appRule] "app.internal".toList "/api/v1/widgets".toList = some appRule ∧
    "/api/v1/widgets".toList ≠ [] ∧
    stripPrefix appRule.pathPrefix "/api/v1/widgets".toList = "/widgets".toList ∧
    (stripPrefix appRule.pathPrefix "/api/v1/widgets".toList ≠ [] ∧
      (hasPrefix "/api/v1/widgets".toList appRule.pathPrefix = true →
        "/api/v1/widgets".toList ≠ appRule.pathPrefix →
        stripPrefix appRule.pathPrefix "/api/v1/widgets".toList
          = "/api/v1/widgets".toList.drop appRule.pathPrefix.length ∧
        trimPrefix "/api/v1/widgets".toList appRule.pathPrefix
          = "/api/v1/widgets".toList.drop appRule.pathPrefix.length ∧
        trimPrefix "/api/v1/widgets".toList appRule.pathPrefix ≠ [])) :=
  ⟨by decide, by decide, by decide,
   C17_stripped_path_nonempty [appRule] "app.internal".toList "/api/v1/widgets".toList appRule
     (by decide) (by decide)⟩

/-! ## Unrecognised modes (C20) -/

/-- C20: when the lowercased mode is none of `shared_secret`, `google` and
`both`, `NewAuthenticator` returns an authenticator without error, and
`authorized` returns true on it for every request. -/
theorem C20_unrecognised_mode_fails_open (lib : GoLib) (verify : GoString → Bool)
    (cfg : Config)
    (h1 : lib.toLower cfg.AuthMode ≠ ModeSharedSecret)
    (h2 : lib.toLower cfg.AuthMode ≠ ModeGoogle)
    (h3 : lib.toLower cfg.AuthMode ≠ ModeBoth) :
    ∃ a, NewAuthenticator lib cfg = Except.ok a ∧
      ∀ r, a.authorized lib verify r = true := by
  refine ⟨{ Mode := lib.toLower cfg.AuthMode
            sharedSecret := lib.trimSpace cfg.SharedSecret
            googleClientID := lib.trimSpace cfg.GoogleClientID
            allowedEmails := cfg.AllowedEmails
            allowedDomains := cfg.AllowedDomains }, ?_, ?_⟩
  · unfold NewAuthenticator
    simp [h1, h2, h3]
  · intro r
    unfold Authenticator.authorized
    simp [h1, h2, h3]

/-- C20 at `AUTH_MODE=OIDC` with a secret configured: construction succeeds
and a request without credentials is authorized. -/
theorem C20_unrecognised_mode_fails_open_witness :
    asciiLib.toLower misspeltModeConfig.AuthMode ≠ ModeSharedSecret ∧
    asciiLib.toLower misspeltModeConfig.AuthMode ≠ ModeGoogle ∧
    asciiLib.toLower misspeltModeConfig.AuthMode ≠ ModeBoth ∧
    ∃ a, NewAuthenticator asciiLib misspeltModeConfig = Except.ok a ∧
      ∀ r, a.authorized asciiLib (fun _ => false) r = true :=
  ⟨by decide, by decide, by decide,
   C20_unrecognised_mode_fails_open asciiLib (fun _ => false) misspeltModeConfig
     (by decide) (by decide) (by decide)⟩

/-! ## RSA keys from key-set entries (C19) -/

theorem setBytes_foldl (b : List Byte) (acc : Nat) :
    b.foldl (fun acc x => acc * 256 + x.val) acc = acc * 256 ^ b.length + setBytes b := by
  unfold setBytes
  induction b generalizing acc with
  | nil => simp
  | cons x xs ih =>
    simp only [List.foldl_cons, List.length_cons]
    rw [ih (acc * 256 + x.val), ih (0 * 256 + x.val)]
    ring

theorem setBytes_append (xs ys : List Byte) :
    setBytes (xs ++ ys) = setBytes xs * 256 ^ ys.length + setBytes ys := by
  show (xs ++ ys).foldl (fun acc x => acc * 256 + x.val) 0 = _
  rw [List.foldl_append, setBytes_foldl ys]
  rfl

theorem setBytes_lt (b : List Byte) : setBytes b < 256 ^ b.length := by
  induction b using List.reverseRecOn with
  | nil => simp [setBytes]
  | append_singleton xs x ih =>
    rw [setBytes_append]
    have hx : setBytes [x] = x.val := by simp [setBytes]
    have hlt : x.val < 256 := x.isLt
    rw [hx]
    simp only [List.length_singleton, pow_one, List.length_append, pow_succ]
    nlinarith

theorem setBytes_replicate_zero (n : Nat) : setBytes (List.replicate n (0 : Byte)) = 0 := by
  induction n with
  | zero => rfl
  | succ n ih =>
    rw [List.replicate_succ']
    rw [setBytes_append, ih]
    simp [setBytes]

/-- On a slice of four bytes `binary.BigEndian.Uint32` is the big-endian
value. -/
theorem bigEndianUint32_eq_setBytes (b : List Byte) (h : b.length = 4) :
    bigEndianUint32 b = setBytes b := by
  match b, h with
  | [a0, a1, a2, a3], _ =>
    simp only [bigEndianUint32, setBytes, List.getD_cons_zero, List.getD_cons_succ,
      List.foldl_cons, List.foldl_nil]
    ring

/-- The exponent computed by `jwkToRSA` from the decoded bytes `e` is their
big-endian value modulo 2^32. -/
theorem exponent_eq_mod (e : List Byte) :
    (if e.length < 4 then bigEndianUint32 (List.replicate (4 - e.length) 0 ++ e)
      else bigEndianUint32 (e.drop (e.length - 4))) = setBytes e % 2 ^ 32 := by
  by_cases h : e.length < 4
  · rw [if_pos h, bigEndianUint32_eq_setBytes _ (by simp; omega), setBytes_append,
      setBytes_replicate_zero]
    have h1 := setBytes_lt e
    have h2 : 256 ^ e.length ≤ 256 ^ 3 := Nat.pow_le_pow_right (by decide) (by omega)
    rw [Nat.mod_eq_of_lt (by omega)]
    simp
  · rw [if_neg h, bigEndianUint32_eq_setBytes _ (by simp; omega)]
    have hsplit : e = e.take (e.length - 4) ++ e.drop (e.length - 4) :=
      (List.take_append_drop _ e).symm
    have hlen : (e.drop (e.length - 4)).length = 4 := by simp; omega
    have h1 := setBytes_lt (e.drop (e.length - 4))
    rw [hlen] at h1
    conv_rhs => rw [hsplit, setBytes_append, hlen]
    have h256 : (256 : Nat) ^ 4 = 2 ^ 32 := by norm_num
    rw [h256] at h1 ⊢
    rw [Nat.mul_add_mod_of_lt h1]

/-- C19 as stated fails: for `e = "AQAAAAE"`, which decodes to the five
bytes 1, 0, 0, 0, 1 with big-endian value 4294967297, `jwkToRSA` returns the
exponent 1. -/
theorem C19_long_exponent_truncated :
    asciiBase64Decode "AQAAAAE".toList = some [1, 0, 0, 0, 1] ∧
    setBytes [1, 0, 0, 0, 1] = 4294967297 ∧
    jwkToRSA base64Lib "AQAB".toList "AQAAAAE".toList = some { N := 65537, E := 1 } := by
  decide

/-- C19, amended: `jwkToRSA` returns an error if and only if `n` or `e` does
not decode; otherwise the modulus is the big-endian value of the decoded
bytes of `n`, and the exponent is the big-endian value of the decoded bytes
of `e` modulo 2^32 (the value of its last four bytes), which is the value
itself when `e` decodes to at most four bytes. -/
theorem C19_jwkToRSA_exponent_mod (jl : JwtLib) (n e : GoString) :
    (jwkToRSA jl n e = none ↔ jl.base64Decode n = none ∨ jl.base64Decode e = none) ∧
    (∀ nBytes eBytes, jl.base64Decode n = some nBytes → jl.base64Decode e = some eBytes →
      jwkToRSA jl n e
        = some { N := setBytes nBytes, E := ((setBytes eBytes % 2 ^ 32 : Nat) : Int) } ∧
      (eBytes.length ≤ 4 → setBytes eBytes % 2 ^ 32 = setBytes eBytes)) ∧
    jwkToRSA base64Lib "AQAB".toList "AQAB".toList = some { N := 65537, E := 65537 } := by
  refine ⟨?_, ?_, by decide⟩
  · unfold jwkToRSA
    cases hn : jl.base64Decode n with
    | none => simp
    | some nBytes =>
      cases he : jl.base64Decode e with
      | none => simp
      | some eBytes => simp
  · intro nBytes eBytes hn he
    constructor
    · unfold jwkToRSA
      simp only [hn, he]
      rw [exponent_eq_mod eBytes]
    · intro hlen
      have h1 := setBytes_lt eBytes
      have h2 : 256 ^ eBytes.length ≤ 256 ^ 4 := Nat.pow_le_pow_right (by decide) hlen
      exact Nat.mod_eq_of_lt (by omega)

/-! ## A refresh without usable keys (C13) -/

/-- The loop over the key set adds nothing when no entry is usable. -/
theorem collectKeys_of_no_usable (jl : JwtLib) (ks : List Jwk) (keys : KeyMap)
    (h : ∀ k ∈ ks, ¬ (k.Kty = "RSA".toList ∧ k.Kid ≠ [] ∧ k.N ≠ [] ∧ k.E ≠ [] ∧
      (jl.base64Decode k.N).isSome = true ∧ (jl.base64Decode k.E).isSome = true)) :
    collectKeys jl ks keys = keys := by
  induction ks with
  | nil => rfl
  | cons k rest ih =>
    have hrest := ih (fun k2 hk2 => h k2 (List.mem_cons_of_mem k hk2))
    have hk := h k (List.mem_cons_self k rest)
    rw [collectKeys]
    by_cases hskip : (k.Kty != "RSA".toList || k.N == [] || k.E == [] || k.Kid == []) = true
    · rw [if_pos hskip]; exact hrest
    · rw [if_neg hskip]
      simp only [Bool.or_eq_true, bne_iff_ne, ne_eq, beq_iff_eq, not_or, not_not] at hskip
      obtain ⟨⟨⟨hkty, hn⟩, he⟩, hkid⟩ := hskip
      cases hrsa : jwkToRSA jl k.N k.E with
      | none => exact hrest
      | some pub =>
        exfalso
        apply hk
        refine ⟨hkty, hkid, hn, he, ?_, ?_⟩
        · cases hdn : jl.base64Decode k.N with
          | none => simp [jwkToRSA, hdn] at hrsa
          | some _ => rfl
        · cases hde : jl.base64Decode k.E with
          | none =>
            cases hdn : jl.base64Decode k.N <;> simp [jwkToRSA, hdn, hde] at hrsa
          | some _ => rfl

/-- C13: a `refreshJWKS` call whose fetch fails, whose response body fails to
parse, or whose key set has no usable entry (kty `RSA`, non-empty kid, n and
e, and decodable n and e) leaves the key mapping and the expiry as they were,
for either value of `force` and every cache state and time. -/
theorem C13_failed_refresh_keeps_cache (jl : JwtLib) (force : Bool) (env : RefreshEnv)
    (c : KeyCache)
    (h : env.resp = FetchResult.fetchError ∨ env.resp = FetchResult.parseError ∨
      ∃ ks, env.resp = FetchResult.body ks ∧
        ∀ k ∈ ks, ¬ (k.Kty = "RSA".toList ∧ k.Kid ≠ [] ∧ k.N ≠ [] ∧ k.E ≠ [] ∧
          (jl.base64Decode k.N).isSome = true ∧ (jl.base64Decode k.E).isSome = true)) :
    refreshJWKS jl force env c = c := by
  unfold refreshJWKS
  split
  · rfl
  · rcases h with h | h | ⟨ks, h, hno⟩
    · rw [h]
    · rw [h]
    · rw [h]
      simp only
      rw [collectKeys_of_no_usable jl ks [] hno]
      simp

/-- C13 at a cache that holds a key and has expired, and a forced refresh
whose response holds only an elliptic-curve key: the cache is unchanged. -/
theorem C13_failed_refresh_keeps_cache_witness :
    (ecOnlyRefresh.resp = FetchResult.fetchError ∨
      ecOnlyRefresh.resp = FetchResult.parseError ∨
      ∃ ks, ecOnlyRefresh.resp = FetchResult.body ks ∧
        ∀ k ∈ ks, ¬ (k.Kty = "RSA".toList ∧ k.Kid ≠ [] ∧ k.N ≠ [] ∧ k.E ≠ [] ∧
          (base64Lib.base64Decode k.N).isSome = true ∧
          (base64Lib.base64Decode k.E).isSome = true)) ∧
    refreshJWKS base64Lib true ecOnlyRefresh warmCache = warmCache :=
  have h : ecOnlyRefresh.resp = FetchResult.fetchError ∨
      ecOnlyRefresh.resp = FetchResult.parseError ∨
      ∃ ks, ecOnlyRefresh.resp = FetchResult.body ks ∧
        ∀ k ∈ ks, ¬ (k.Kty = "RSA".toList ∧ k.Kid ≠ [] ∧ k.N ≠ [] ∧ k.E ≠ [] ∧
          (base64Lib.base64Decode k.N).isSome = true ∧
          (base64Lib.base64Decode k.E).isSome = true) :=
    Or.inr (Or.inr ⟨[ecJwk], rfl, by
      intro k hk
      rw [List.mem_singleton] at hk
      subst hk
      decide⟩)
  ⟨h, C13_failed_refresh_keeps_cache base64Lib true ecOnlyRefresh warmCache h⟩

/-! ## The claims of a verified token (C11, C12) -/

theorem verifyGoogleToken_of_verifiedClaims (lib : GoLib) (jl : JwtLib) (a : Authenticator)
    (env : VerifyEnv) (c : KeyCache) (tok : GoString) (claims : Claims)
    (hv : (verifiedClaims jl env c tok).1 = some claims) :
    (verifyGoogleToken lib jl a env c tok).1 = checkClaims lib a env.nowExp claims := by
  unfold verifyGoogleToken
  cases hvc : verifiedClaims jl env c tok with
  | mk oc c1 =>
    rw [hvc] at hv
    simp only at hv
    subst hv
    rfl

/-- For `sec` in the `int64` range and at most 9223371974719179007,
`time.Unix(sec, 0)` is the instant `sec` seconds after the epoch. -/
theorem unixTime_of_le (sec : Int) (hlo : -9223372036854775808 ≤ sec)
    (hhi : sec ≤ 9223371974719179007) : unixTime sec = sec * 1000000000 := by
  unfold unixTime wrapInt64
  have h : (sec + 62135596800 + 9223372036854775808) % 18446744073709551616
      = sec + 62135596800 + 9223372036854775808 :=
    Int.emod_eq_of_lt (by linarith) (by linarith)
  rw [h]
  ring

/-- What `checkClaims` returns without allow-list. -/
theorem checkClaims_no_allow_list (lib : GoLib) (a : Authenticator) (now : Time)
    (claims : Claims) (he : a.allowedEmails = []) (hd : a.allowedDomains = []) :
    checkClaims lib a now claims = true ↔
      (claims.Iss = "https://accounts.google.com".toList ∨
        claims.Iss = "accounts.google.com".toList) ∧
      claims.Aud = a.googleClientID ∧
      now - 60 * 1000000000 ≤ unixTime claims.Exp := by
  unfold checkClaims minute
  simp only [he, hd, List.length_nil, gt_iff_lt, lt_self_iff_false, decide_False,
    Bool.or_self, Bool.false_eq_true, if_false]
  by_cases h1 : claims.Iss = "https://accounts.google.com".toList
  · by_cases h3 : claims.Aud = a.googleClientID
    · by_cases h4 : unixTime claims.Exp < now + -1 * (60 * 1000000000)
      · simp only [h1, h3, h4]
        simp
        linarith
      · simp only [h1, h3, h4]
        simp
        linarith
    · simp [h1, h3]
  · by_cases h2 : claims.Iss = "accounts.google.com".toList
    · by_cases h3 : claims.Aud = a.googleClientID
      · by_cases h4 : unixTime claims.Exp < now + -1 * (60 * 1000000000)
        · simp only [h2, h3, h4]
          simp
          linarith
        · simp only [h2, h3, h4]
          simp
          linarith
      · simp [h2, h3]
    · simp [h1, h2]

/-- C11 as stated fails: a token presented 1700000000 seconds after the
epoch whose structure, key lookup and signature check succeed, with an
accepted issuer, the configured audience and the expiry 2^63 - 1, which is
not before the current time, is rejected without allow-list: the seconds of
`time.Unix` wrap around. -/
theorem C11_max_expiry_rejected :
    (verifiedClaims (tokenLib rs256Header (googleClaims maxInt64) true)
      verifyEnvAt1700000000 warmCache sampleToken).1 = some (googleClaims maxInt64) ∧
    googleAuthenticator.allowedEmails = [] ∧
    googleAuthenticator.allowedDomains = [] ∧
    (googleClaims maxInt64).Iss = "https://accounts.google.com".toList ∧
    (googleClaims maxInt64).Aud = googleAuthenticator.googleClientID ∧
    verifyEnvAt1700000000.nowExp - 60 * 1000000000
      ≤ (googleClaims maxInt64).Exp * 1000000000 ∧
    (verifyGoogleToken asciiLib (tokenLib rs256Header (googleClaims maxInt64) true)
      googleAuthenticator verifyEnvAt1700000000 warmCache sampleToken).1 = false := by
  decide

/-- C11, amended: for a token whose structure, key lookup and signature check
succeed and whose payload decodes to `claims`, with no allow-list configured
and an expiry of at most 9223371974719179007 (the largest `int64` whose
`time.Unix` does not wrap around), `verifyGoogleToken` returns true if and
only if the issuer is `https://accounts.google.com` or `accounts.google.com`,
the audience equals the configured client ID, and the expiry is not more than
60 seconds before the current time. -/
theorem C11_issuer_audience_expiry (lib : GoLib) (jl : JwtLib) (a : Authenticator)
    (env : VerifyEnv) (c : KeyCache) (tok : GoString) (claims : Claims)
    (hv : (verifiedClaims jl env c tok).1 = some claims)
    (he : a.allowedEmails = []) (hd : a.allowedDomains = [])
    (hlo : -9223372036854775808 ≤ claims.Exp)
    (hhi : claims.Exp ≤ 9223371974719179007) :
    (verifyGoogleToken lib jl a env c tok).1 = true ↔
      (claims.Iss = "https://accounts.google.com".toList ∨
        claims.Iss = "accounts.google.com".toList) ∧
      claims.Aud = a.googleClientID ∧
      env.nowExp - 60 * 1000000000 ≤ claims.Exp * 1000000000 := by
  rw [verifyGoogleToken_of_verifiedClaims lib jl a env c tok claims hv,
    checkClaims_no_allow_list lib a env.nowExp claims he hd,
    unixTime_of_le claims.Exp hlo hhi]

/-- C11, amended, for a token presented 1700000000 seconds after the epoch:
with expiry 30 seconds before, it is accepted; with expiry 120 seconds
before, or with the audience `other`, it is rejected. -/
theorem C11_issuer_audience_expiry_witness :
    (verifiedClaims (tokenLib rs256Header (googleClaims (1700000000 - 30)) true)
      verifyEnvAt1700000000 warmCache sampleToken).1 = some (googleClaims (1700000000 - 30)) ∧
    googleAuthenticator.allowedEmails = [] ∧
    googleAuthenticator.allowedDomains = [] ∧
    -9223372036854775808 ≤ (googleClaims (1700000000 - 30)).Exp ∧
    (googleClaims (1700000000 - 30)).Exp ≤ 9223371974719179007 ∧
    (verifyGoogleToken asciiLib (tokenLib rs256Header (googleClaims (1700000000 - 30)) true)
      googleAuthenticator verifyEnvAt1700000000 warmCache sampleToken).1 = true ∧
    (verifyGoogleToken asciiLib (tokenLib rs256Header (googleClaims (1700000000 - 120)) true)
      googleAuthenticator verifyEnvAt1700000000 warmCache sampleToken).1 = false ∧
    (verifyGoogleToken asciiLib
      (tokenLib rs256Header { googleClaims (1700000000 + 3600) with Aud := "other".toList } true)
      googleAuthenticator verifyEnvAt1700000000 warmCache sampleToken).1 = false ∧
    ((verifyGoogleToken asciiLib (tokenLib rs256Header (googleClaims (1700000000 - 30)) true)
        googleAuthenticator verifyEnvAt1700000000 warmCache sampleToken).1 = true ↔
      ((googleClaims (1700000000 - 30)).Iss = "https://accounts.google.com".toList ∨
        (googleClaims (1700000000 - 30)).Iss = "accounts.google.com".toList) ∧
      (googleClaims (1700000000 - 30)).Aud = googleAuthenticator.googleClientID ∧
      verifyEnvAt1700000000.nowExp - 60 * 1000000000
        ≤ (googleClaims (1700000000 - 30)).Exp * 1000000000) :=
  ⟨by decide, rfl, rfl, by decide, by decide, by decide, by decide, by decide,
   C11_issuer_audience_expiry asciiLib (tokenLib rs256Header (googleClaims (1700000000 - 30)) true)
     googleAuthenticator verifyEnvAt1700000000 warmCache sampleToken
     (googleClaims (1700000000 - 30)) (by decide) rfl rfl (by decide) (by decide)⟩

/-- C12 as stated fails: with the allowed domain `example.com`, a token that
passes the signature, issuer, audience and expiry checks (it is accepted
without allow-list) and carries the verified email `@example.com`, whose
part after the last `@` is `example.com`, is rejected. -/
theorem C12_empty_local_part_rejected :
    (verifyGoogleToken asciiLib (tokenLib rs256Header (noLocalPartClaims 1700003600) true)
      googleAuthenticator verifyEnvAt1700000000 warmCache sampleToken).1 = true ∧
    (noLocalPartClaims 1700003600).Email ≠ [] ∧
    (noLocalPartClaims 1700003600).EmailVerified = true ∧
    (noLocalPartClaims 1700003600).Email.drop
        (lastIndexByte (noLocalPartClaims 1700003600).Email '@' + 1).toNat
      ∈ domainAuthenticator.allowedDomains ∧
    (verifyGoogleToken asciiLib (tokenLib rs256Header (noLocalPartClaims 1700003600) true)
      domainAuthenticator verifyEnvAt1700000000 warmCache sampleToken).1 = false := by
  decide

/-- C12, amended: with an allow-list configured, for a token that passes the
signature, issuer, audience and expiry checks (`time.Unix` of its expiry is
not more than 60 seconds before the current time), `verifyGoogleToken`
returns true if and only if the email claim is non-empty, `email_verified` is true,
and the lowercased email is an entry of `allowedEmails`, or its last `@` is
not its first byte and the part after that `@` is an entry of
`allowedDomains`. -/
theorem C12_allow_list (lib : GoLib) (jl : JwtLib) (a : Authenticator)
    (env : VerifyEnv) (c : KeyCache) (tok : GoString) (claims : Claims)
    (hv : (verifiedClaims jl env c tok).1 = some claims)
    (hiss : claims.Iss = "https://accounts.google.com".toList ∨
      claims.Iss = "accounts.google.com".toList)
    (haud : claims.Aud = a.googleClientID)
    (hexp : env.nowExp - 60 * 1000000000 ≤ unixTime claims.Exp)
    (hlist : a.allowedEmails ≠ [] ∨ a.allowedDomains ≠ []) :
    (verifyGoogleToken lib jl a env c tok).1 = true ↔
      claims.Email ≠ [] ∧ claims.EmailVerified = true ∧
      (lib.toLower claims.Email ∈ a.allowedEmails ∨
        (0 < lastIndexByte (lib.toLower claims.Email) '@' ∧
          (lib.toLower claims.Email).drop
              (lastIndexByte (lib.toLower claims.Email) '@' + 1).toNat
            ∈ a.allowedDomains)) := by
  rw [verifyGoogleToken_of_verifiedClaims lib jl a env c tok claims hv]
  unfold checkClaims minute
  have h1 : (claims.Iss != "https://accounts.google.com".toList
      && claims.Iss != "accounts.google.com".toList) = false := by
    rcases hiss with h | h <;> simp [h]
  have h2 : (claims.Aud != a.googleClientID) = false := by simp [haud]
  have h3 : ¬ (unixTime claims.Exp < env.nowExp + -1 * (60 * 1000000000)) := by
    intro h
    linarith
  have h4 : (decide (a.allowedEmails.length > 0) || decide (a.allowedDomains.length > 0))
      = true := by
    rcases hlist with h | h
    · have : 0 < a.allowedEmails.length := List.length_pos.mpr h
      simp [this]
    · have : 0 < a.allowedDomains.length := List.length_pos.mpr h
      simp [this]
  simp only [h1, h2, h3, h4, Bool.false_eq_true, if_false, if_true]
  by_cases he : claims.Email = []
  · simp [he]
  · cases hver : claims.EmailVerified with
    | false => simp [he]
    | true =>
      by_cases hmem : lib.toLower claims.Email ∈ a.allowedEmails
      · simp [he, hmem]
      · simp [he, hmem]

/-- C12 at the allowed domain `example.com`: a token with the verified email
`user@example.com` is accepted; the same token with `email_verified` false is
rejected. -/
theorem C12_allow_list_witness :
    (verifiedClaims (tokenLib rs256Header (googleClaims 1700003600) true)
      verifyEnvAt1700000000 warmCache sampleToken).1 = some (googleClaims 1700003600) ∧
    ((googleClaims 1700003600).Iss = "https://accounts.google.com".toList ∨
      (googleClaims 1700003600).Iss = "accounts.google.com".toList) ∧
    (googleClaims 1700003600).Aud = domainAuthenticator.googleClientID ∧
    verifyEnvAt1700000000.nowExp - 60 * 1000000000
      ≤ unixTime (googleClaims 1700003600).Exp ∧
    (domainAuthenticator.allowedEmails ≠ [] ∨ domainAuthenticator.allowedDomains ≠ []) ∧
    (verifyGoogleToken asciiLib (tokenLib rs256Header (googleClaims 1700003600) true)
      domainAuthenticator verifyEnvAt1700000000 warmCache sampleToken).1 = true ∧
    (verifyGoogleToken asciiLib
      (tokenLib rs256Header { googleClaims 1700003600 with EmailVerified := false } true)
      domainAuthenticator verifyEnvAt1700000000 warmCache sampleToken).1 = false ∧
    ((verifyGoogleToken asciiLib (tokenLib rs256Header (googleClaims 1700003600) true)
        domainAuthenticator verifyEnvAt1700000000 warmCache sampleToken).1 = true ↔
      (googleClaims 1700003600).Email ≠ [] ∧ (googleClaims 1700003600).EmailVerified = true ∧
      (asciiLib.toLower (googleClaims 1700003600).Email ∈ domainAuthenticator.allowedEmails ∨
        (0 < lastIndexByte (asciiLib.toLower (googleClaims 1700003600).Email) '@' ∧
          (asciiLib.toLower (googleClaims 1700003600).Email).drop
              (lastIndexByte (asciiLib.toLower (googleClaims 1700003600).Email) '@' + 1).toNat
            ∈ domainAuthenticator.allowedDomains))) :=
  ⟨by decide, by decide, by decide, by decide, by decide, by decide, by decide,
   C12_allow_list asciiLib (tokenLib rs256Header (googleClaims 1700003600) true)
     domainAuthenticator verifyEnvAt1700000000 warmCache sampleToken (googleClaims 1700003600)
     (by decide) (by decide) (by decide) (by decide) (by decide)⟩

/-! ## The key-cache invariant (C14) -/

/-- A call of `refreshJWKS` either installs nothing and leaves the cache as
it was, or installs a non-empty mapping that expires 10 minutes after the
time of the installation. -/
theorem refreshJWKS_cases (jl : JwtLib) (force : Bool) (env : RefreshEnv) (c : KeyCache) :
    (refreshInstalls jl force env c = false ∧ refreshJWKS jl force env c = c) ∨
    (refreshInstalls jl force env c = true ∧ ∃ m : KeyMap, m ≠ [] ∧
      refreshJWKS jl force env c
        = { jwks := some m, jwksExp := env.nowInstall + 10 * minute }) := by
  unfold refreshInstalls refreshJWKS
  by_cases hskip : (!force && decide (env.nowCheck < c.jwksExp)) = true
  · left
    simp [hskip]
  · simp only [hskip, Bool.false_eq_true, if_false]
    cases hresp : env.resp with
    | fetchError => left; simp
    | parseError => left; simp
    | body ks =>
      by_cases hlen : (collectKeys jl ks []).length > 0
      · right
        refine ⟨by simp [hlen], collectKeys jl ks [], List.length_pos.mp hlen, ?_⟩
        simp [hlen]
      · left
        simp [hlen]

/-- A call on the key cache either performs no successful refresh and leaves
the cache as it was, or performs one at time `t` and leaves a non-empty
mapping that expires at `t` plus 10 minutes. -/
theorem CacheCall.run_cases (jl : JwtLib) (call : CacheCall) (c : KeyCache) :
    (call.refreshedAt jl c = none ∧ call.run jl c = c) ∨
    (∃ t, call.refreshedAt jl c = some t ∧ ∃ m : KeyMap, m ≠ [] ∧
      call.run jl c = { jwks := some m, jwksExp := t + 10 * minute }) := by
  cases call with
  | fetch kid now env =>
    unfold CacheCall.refreshedAt CacheCall.run fetchKey
    by_cases hcond : (c.jwks.isNone || decide (now > c.jwksExp)) = true
    · rcases refreshJWKS_cases jl false env c with ⟨hno, hsame⟩ | ⟨hyes, m, hm, hnew⟩
      · left
        simp only [hcond, hno, if_true, hsame, Bool.and_false, Bool.false_eq_true, if_false,
          true_and]
        cases c.jwks <;> rfl
      · right
        refine ⟨env.nowInstall, by simp [hcond, hyes], m, hm, ?_⟩
        simp only [hcond, if_true, hnew]
    · left
      simp only [hcond, Bool.false_eq_true, if_false, Bool.false_and, true_and]
      cases c.jwks <;> rfl
  | refresh force env =>
    unfold CacheCall.refreshedAt CacheCall.run
    rcases refreshJWKS_cases jl force env c with ⟨hno, hsame⟩ | ⟨hyes, m, hm, hnew⟩
    · left
      simp [hno, hsame]
    · right
      exact ⟨env.nowInstall, by simp [hyes], m, hm, hnew⟩

theorem runCalls_inv (jl : JwtLib) (calls : List CacheCall) :
    ∀ s : CacheHistory, s.Inv → (runCalls jl calls s).Inv := by
  induction calls with
  | nil => intro s hs; exact hs
  | cons call rest ih =>
    intro s hs
    rw [runCalls]
    apply ih
    rcases CacheCall.run_cases jl call s.cache with ⟨hno, hsame⟩ | ⟨t, hat, m, hm, hnew⟩
    · rw [hno, hsame]
      exact hs
    · right
      refine ⟨m, t, ?_, hm, ?_, ?_, ?_⟩
      · simp [hnew]
      · simp [hat]
      · simp [hnew]
      · simp only [hnew]
        have : (0 : Int) < 10 * minute := by decide
        linarith

/-- C14: in every state reached from a freshly constructed `Authenticator`
by a sequence of `fetchKey` and `refreshJWKS` calls, with arbitrary fetch
results and clock readings, either the key mapping is nil and the expiry is
the zero time, or the key mapping is non-empty and the expiry is the time of
the most recent successful refresh plus 10 minutes, strictly after that
time. -/
theorem C14_key_cache_invariant (jl : JwtLib) (calls : List CacheCall) :
    ((runCalls jl calls CacheHistory.fresh).cache.jwks = none ∧
      (runCalls jl calls CacheHistory.fresh).cache.jwksExp = zeroTime ∧
      (runCalls jl calls CacheHistory.fresh).lastRefresh = none) ∨
    (∃ (m : KeyMap) (t : Time),
      (runCalls jl calls CacheHistory.fresh).cache.jwks = some m ∧ m ≠ [] ∧
      (runCalls jl calls CacheHistory.fresh).lastRefresh = some t ∧
      (runCalls jl calls CacheHistory.fresh).cache.jwksExp = t + 10 * minute ∧
      t < (runCalls jl calls CacheHistory.fresh).cache.jwksExp) :=
  runCalls_inv jl calls CacheHistory.fresh (Or.inl ⟨rfl, rfl, rfl⟩)

/-! ## Lock discipline (C16) -/

/-- C16 (evaluation at the failing input): on a key miss `verifyGoogleToken`
runs `refreshJWKS(true)` after `fetchKey` has unlocked `jwksMu`.  With two
goroutines on such tokens there is a schedule after which both are inside
`refreshJWKS` and nobody holds the mutex, and a schedule after which one is
inside `refreshJWKS` while the other holds the mutex and has read the cache
in `fetchKey`. -/
theorem C16_refresh_outside_lock :
    verifyActs false true false
      = [Act.lock, Act.readCache, Act.readCache, Act.unlock,
         Act.refreshBegin, Act.refreshEnd,
         Act.lock, Act.readCache, Act.readCache, Act.unlock] ∧
    (twoMisses.run [0, 0, 0, 0, 0, 1, 1, 1, 1, 1]).map
        (fun s => (s.refreshers, s.owner, s.refreshesUnlocked 0, s.refreshesUnlocked 1))
      = some ([0, 1], none, true, true) ∧
    (twoMisses.run [0, 0, 0, 0, 0, 1, 1]).map
        (fun s => (s.refreshers, s.owner, s.refreshesUnlocked 0))
      = some ([0], some 1, true) := by
  decide

/-! ## The order of the routes (C18) -/

/-- C18 (evaluation at the failing input): the three routes `a.com/s`,
`b.com/m`, `a.com/long` keep their order under the sort of `FromEnv`, so the
route `a.com/s` stays before the route `a.com/long` of the same host and
longer prefix. -/
theorem C18_shorter_prefix_stays_first :
    threeRoutes.length ≤ 20 ∧
    (sortRoutes threeRoutes).map (fun r => (r.Host, r.PathPrefix))
      = [("a.com".toList, "/s".toList), ("b.com".toList, "/m".toList),
         ("a.com".toList, "/long".toList)] := by
  decide

/-! ## Order independence (C21) -/

/-- The rule `Router.match` returns is in the table, is a candidate, and no
candidate of the table ranks above it. -/
theorem matchRule_eq_some_max (rules : List Rule) (host path : GoString) (r : Rule)
    (h : matchRule rules host path = some r) :
    r ∈ rules ∧ r.candidate host path = true ∧
      ∀ c ∈ rules, c.candidate host path = true → c.plen ≤ r.plen := by
  obtain ⟨k, hidx, hk⟩ := (matchRule_eq_some_iff rules host path r).mp h
  obtain ⟨r2, hk2, hc, hmax, _⟩ := matchIndex_eq_some rules host path k hidx
  rw [hk] at hk2
  cases hk2
  exact ⟨List.getElem?_mem hk, hc, hmax⟩

theorem matchRule_eq_none_iff (rules : List Rule) (host path : GoString) :
    matchRule rules host path = none ↔ ∀ c ∈ rules, c.candidate host path = false := by
  rw [← matchIndex_eq_none_iff]
  unfold matchRule
  cases hidx : matchIndex rules host path with
  | none => simp
  | some k =>
    obtain ⟨r, hk, _⟩ := matchIndex_eq_some rules host path k hidx
    simp [hk]

/-- Two candidates of the same rank, with prefixes shorter than 1000000
bytes, have the same host and the same prefix. -/
theorem candidates_same_plen (host path : GoString) (r1 r2 : Rule)
    (h1 : r1.candidate host path = true) (h2 : r2.candidate host path = true)
    (hs1 : r1.pathPrefix.length < 1000000) (hs2 : r2.pathPrefix.length < 1000000)
    (hplen : r1.plen = r2.plen) :
    r1.host = r2.host ∧ r1.pathPrefix = r2.pathPrefix := by
  obtain ⟨hh1, hp1⟩ := (r1.candidate_iff host path).mp h1
  obtain ⟨hh2, hp2⟩ := (r2.candidate_iff host path).mp h2
  have hp1 : r1.pathPrefix <+: path := by
    rcases hp1 with h | h
    · rw [h]; exact List.nil_prefix
    · exact h
  have hp2 : r2.pathPrefix <+: path := by
    rcases hp2 with h | h
    · rw [h]; exact List.nil_prefix
    · exact h
  have htier : r1.host = [] ↔ r2.host = [] := by
    unfold Rule.plen at hplen
    by_cases e1 : r1.host = [] <;> by_cases e2 : r2.host = []
    · exact ⟨fun _ => e2, fun _ => e1⟩
    · simp [e1, e2] at hplen; omega
    · simp [e1, e2] at hplen; omega
    · exact ⟨fun h => absurd h e1, fun h => absurd h e2⟩
  have hlen : r1.pathPrefix.length = r2.pathPrefix.length := by
    have hle := (Rule.plen_le_iff_of_same_tier r1 r2 htier).mp (le_of_eq hplen)
    have hge := (Rule.plen_le_iff_of_same_tier r2 r1 htier.symm).mp (le_of_eq hplen.symm)
    omega
  constructor
  · by_cases e1 : r1.host = []
    · rw [e1, htier.mp e1]
    · have e2 : ¬ r2.host = [] := fun e => e1 (htier.mpr e)
      rcases hh1 with h | h
      · exact absurd h e1
      · rcases hh2 with h' | h'
        · exact absurd h' e2
        · rw [h, h']
  · exact (List.prefix_of_prefix_length_le hp1 hp2 (le_of_eq hlen)).eq_of_length hlen

/-- C21: for a rule table whose prefixes are all shorter than 1000000 bytes
and every permutation of it, `Router.match` returns a rule on the one exactly
when it does on the other, and the two returned rules have the same host and
the same prefix; when no two rules of the table share the pair of host and
prefix, `Router.match` returns the same rule on both. -/
theorem C21_order_independence (rules rules2 : List Rule) (host path : GoString)
    (hperm : rules.Perm rules2)
    (hshort : ∀ r ∈ rules, r.pathPrefix.length < 1000000) :
    (matchRule rules host path = none ↔ matchRule rules2 host path = none) ∧
    (∀ r1 r2, matchRule rules host path = some r1 → matchRule rules2 host path = some r2 →
      r1.host = r2.host ∧ r1.pathPrefix = r2.pathPrefix) ∧
    ((rules.map fun r => (r.host, r.pathPrefix)).Nodup →
      matchRule rules host path = matchRule rules2 host path) := by
  have hnone : matchRule rules host path = none ↔ matchRule rules2 host path = none := by
    rw [matchRule_eq_none_iff, matchRule_eq_none_iff]
    constructor
    · intro h c hc
      exact h c (hperm.mem_iff.mpr hc)
    · intro h c hc
      exact h c (hperm.mem_iff.mp hc)
  have hsame : ∀ r1 r2, matchRule rules host path = some r1 →
      matchRule rules2 host path = some r2 →
      r1.host = r2.host ∧ r1.pathPrefix = r2.pathPrefix := by
    intro r1 r2 e1 e2
    obtain ⟨m1, c1, max1⟩ := matchRule_eq_some_max rules host path r1 e1
    obtain ⟨m2, c2, max2⟩ := matchRule_eq_some_max rules2 host path r2 e2
    have m2' : r2 ∈ rules := hperm.mem_iff.mpr m2
    have hle1 := max1 r2 m2' c2
    have hle2 := max2 r1 (hperm.mem_iff.mp m1) c1
    exact candidates_same_plen host path r1 r2 c1 c2 (hshort r1 m1) (hshort r2 m2')
      (le_antisymm hle2 hle1)
  refine ⟨hnone, hsame, ?_⟩
  intro hnodup
  cases e1 : matchRule rules host path with
  | none => exact (hnone.mp e1).symm
  | some r1 =>
    cases e2 : matchRule rules2 host path with
    | none => rw [hnone.mpr e2] at e1; exact absurd e1 (by simp)
    | some r2 =>
      obtain ⟨hh, hp⟩ := hsame r1 r2 e1 e2
      have m1 := (matchRule_eq_some_max rules host path r1 e1).1
      have m2 := hperm.mem_iff.mpr (matchRule_eq_some_max rules2 host path r2 e2).1
      have : r1 = r2 := List.inj_on_of_nodup_map hnodup m1 m2 (by rw [hh, hp])
      rw [this]

/-- C21 at the table `{a.com, /api}`, `{"", /api/v2}`, `{a.com, /api/v1}` and
its reversal, for the request `a.com/api/v1/x`: both orders return the
`/api/v1` rule.  Two rules with the same host and prefix are returned in
table order. -/
theorem C21_order_independence_witness :
    [hostApiRule, wildcardApiV2Rule, hostApiV1Rule].Perm
      [hostApiV1Rule, wildcardApiV2Rule, hostApiRule] ∧
    (∀ r ∈ [hostApiRule, wildcardApiV2Rule, hostApiV1Rule], r.pathPrefix.length < 1000000) ∧
    ([hostApiRule, wildcardApiV2Rule, hostApiV1Rule].map
      fun r => (r.host, r.pathPrefix)).Nodup ∧
    matchRule [hostApiRule, wildcardApiV2Rule, hostApiV1Rule] "a.com".toList
      "/api/v1/x".toList = some hostApiV1Rule ∧
    matchRule [hostApiV1Rule, wildcardApiV2Rule, hostApiRule] "a.com".toList
      "/api/v1/x".toList = some hostApiV1Rule ∧
    matchRule [hostApiRule, hostApiRuleAlt] "a.com".toList "/api/v1/x".toList
      = some hostApiRule ∧
    matchRule [hostApiRuleAlt, hostApiRule] "a.com".toList "/api/v1/x".toList
      = some hostApiRuleAlt ∧
    ((matchRule [hostApiRule, wildcardApiV2Rule, hostApiV1Rule] "a.com".toList
        "/api/v1/x".toList = none ↔
      matchRule [hostApiV1Rule, wildcardApiV2Rule, hostApiRule] "a.com".toList
        "/api/v1/x".toList = none) ∧
     (∀ r1 r2,
        matchRule [hostApiRule, wildcardApiV2Rule, hostApiV1Rule] "a.com".toList
          "/api/v1/x".toList = some r1 →
        matchRule [hostApiV1Rule, wildcardApiV2Rule, hostApiRule] "a.com".toList
          "/api/v1/x".toList = some r2 →
        r1.host = r2.host ∧ r1.pathPrefix = r2.pathPrefix) ∧
     (([hostApiRule, wildcardApiV2Rule, hostApiV1Rule].map
        fun r => (r.host, r.pathPrefix)).Nodup →
      matchRule [hostApiRule, wildcardApiV2Rule, hostApiV1Rule] "a.com".toList
          "/api/v1/x".toList
        = matchRule [hostApiV1Rule, wildcardApiV2Rule, hostApiRule] "a.com".toList
          "/api/v1/x".toList)) :=
  ⟨by decide, by decide, by decide, by decide, by decide, by decide, by decide,
   C21_order_independence [hostApiRule, wildcardApiV2Rule, hostApiV1Rule]
     [hostApiV1Rule, wildcardApiV2Rule, hostApiRule] "a.com".toList "/api/v1/x".toList
     (by decide) (by decide)⟩

end TailscaleProxy
